import Mathlib

set_option linter.unusedSectionVars false

/-!
Verification of the RRT* planner in `pykin/planners/rrt_star_planner.py`.

The planner works on joint configurations, which in the source are numpy
arrays of floats compared with the Euclidean norm.  We embed configurations
as elements of an arbitrary real normed vector space `V`; the source's
configuration space `ℝ^dof` with `np.linalg.norm` is the instance
`EuclideanSpace ℝ (Fin dof)`, used for the concrete runs below.

External effects of the source are modelled as explicit inputs:
* the collision oracle (`FclManager`, whose code is not part of the planner
  file) is a fixed boolean function of the queried configuration, matching
  the spec's deterministic "Collision Oracle" contract;
* `np.random` draws are an explicit sample sequence `sample : ℕ → V`
  giving the configuration produced by `random_state()` in iteration `k`;
* the joint-limit test `_q_in_limits` is likewise a boolean function of the
  configuration (its internals never matter to the claims checked here).

The `Tree` class is imported from `pykin.planners.tree`, whose file is not
part of the sources; its operations are modelled from the spec (§4.1):
`add_vertex` appends a configuration, `add_edge([p, c])` appends the pair
`(p, c)` to the positional edge list, and rewiring mutates the first
component of an existing entry in place (the planner itself writes
`self.T.edges[i-1][0] = new_idx`).
-/

namespace RRTStar

section Planner

variable {V : Type} [NormedAddCommGroup V] [NormedSpace ℝ V] [DecidableEq V]

/-- `RRTStarPlanner.distance(pointA, pointB) = np.linalg.norm(pointB - pointA)`. -/
noncomputable def distance (pointA pointB : V) : ℝ := ‖pointB - pointA‖

/-- Parameters and externals of one `RRTStarPlanner` run: the constructor
arguments of the planner together with the modelled external inputs
(collision oracle, joint-limit test, sample sequence). -/
structure RRTParams (V : Type) where
  delta_dis : ℝ
  gamma_RRTs : ℝ
  dimension : ℕ
  max_iter : ℕ
  cur_q : V
  goal_q : V
  collision_free : V → Bool
  q_in_limits : V → Bool
  sample : ℕ → V

/-- Mutable planner state during `generate_path()`: the tree
(`T.vertices`, `T.edges`) and the cost dictionary, plus the `path`
variable.  Modelled from the spec (§4.1): vertices and edges are
append-only lists, edge `j` connects vertex `j+1` to its parent
`edges[j].1`. -/
structure RRTState (V : Type) where
  vertices : List V
  edges : List (ℕ × ℕ)
  cost : List ℝ
  path : Option (List V)

/-- Helper for `np.argmin`: scan the remaining entries, keeping the index of
the first strictly smallest value seen so far. -/
noncomputable def argminAux : List ℝ → ℕ → ℕ → ℝ → ℕ
  | [], _, best_idx, _ => best_idx
  | d :: ds, i, best_idx, best_val =>
      if d < best_val then argminAux ds (i + 1) i d
      else argminAux ds (i + 1) best_idx best_val

/-- `np.argmin` on a list of reals: index of the first minimum (0 on the
empty list, which the source never queries). -/
noncomputable def np_argmin : List ℝ → ℕ
  | [] => 0
  | d :: ds => argminAux ds 1 0 d

/-- `nearest_neighbor(random_q, tree)`: linear scan of the vertex list under
`distance`, returning the nearest vertex and its index. -/
noncomputable def nearest_neighbor (random_q : V) (vertices : List V) : V × ℕ :=
  let distances := vertices.map (fun vertex => distance random_q vertex)
  let nearest_idx := np_argmin distances
  (vertices.getD nearest_idx 0, nearest_idx)

/-- `new_state(nearest_q, random_q)`: if the sample equals the nearest vertex
componentwise, return the nearest vertex itself; otherwise advance from the
nearest vertex toward the sample by `min(delta_dis, dist)` along the unit
direction vector. -/
noncomputable def new_state (delta_dis : ℝ) (nearest_q random_q : V) : V :=
  if nearest_q = random_q then nearest_q
  else
    let vector := random_q - nearest_q
    let d := distance random_q nearest_q
    let step := min delta_dis d
    let unit_vector := d⁻¹ • vector
    nearest_q + step • unit_vector

/-- `find_near_neighbor(q)`: indices of tree vertices within
`min(gamma_RRTs * (log(card_V)/card_V)^(1/dimension), delta_dis)` of `q`,
each additionally filtered by the (per-candidate) collision check on `q`
itself, exactly as the source's loop does. -/
noncomputable def find_near_neighbor (P : RRTParams V) (q : V) (vertices : List V) : List ℕ :=
  let card_V : ℕ := vertices.length + 1
  let r := P.gamma_RRTs * (Real.log card_V / card_V) ^ ((1 : ℝ) / (P.dimension : ℝ))
  let search_radius := min r P.delta_dis
  (List.range vertices.length).filter
    (fun idx => decide (distance (vertices.getD idx 0) q ≤ search_radius)
      && P.collision_free q)

/-- `get_new_cost(idx, A, B) = cost[idx] + distance(A, B)`. -/
noncomputable def get_new_cost (cost : List ℝ) (idx : ℕ) (A B : V) : ℝ :=
  cost.getD idx 0 + distance A B

/-- `get_minimum_cost(neighbor_indexes, new_q, min_cost, nearest_idx)`:
fold over the neighbor indices, adopting `i` as parent whenever routing
through it is strictly cheaper (and the redundant collision check on
`new_q` passes). -/
noncomputable def get_minimum_cost (P : RRTParams V) (vertices : List V) (cost : List ℝ)
    (neighbor_indexes : List ℕ) (new_q : V) (min_cost : ℝ) (nearest_idx : ℕ) : ℝ × ℕ :=
  neighbor_indexes.foldl
    (fun acc i =>
      let new_cost := get_new_cost cost i new_q (vertices.getD i 0)
      if new_cost < acc.1 ∧ P.collision_free new_q = true then (new_cost, i) else acc)
    (min_cost, nearest_idx)

/-- `rewire(neighbor_indexes, new_q, new_idx)` acting on the pair
`(cost, edges)`.  For each neighbor `i` whose reconnection through the new
vertex is collision-free and strictly cheaper, the source executes
`self.cost[i] = new_cost` and `self.T.edges[i-1][0] = new_idx`; Python's
index `i-1` wraps to the **last** edge when `i = 0`, which the model
reproduces. -/
noncomputable def rewire (P : RRTParams V) (vertices : List V) (neighbor_indexes : List ℕ)
    (new_q : V) (new_idx : ℕ) (cost : List ℝ) (edges : List (ℕ × ℕ)) :
    List ℝ × List (ℕ × ℕ) :=
  neighbor_indexes.foldl
    (fun ce i =>
      let no_collision := P.collision_free (vertices.getD i 0)
      let new_cost := get_new_cost ce.1 new_idx new_q (vertices.getD i 0)
      if no_collision = true ∧ new_cost < ce.1.getD i 0 then
        let j := if i = 0 then ce.2.length - 1 else i - 1
        (ce.1.set i new_cost, ce.2.set j (new_idx, (ce.2.getD j (0, 0)).2))
      else ce)
    (cost, edges)

/-- `reach_to_goal(point)`: distance to the goal within the hard-coded 0.2
tolerance. -/
noncomputable def reach_to_goal (P : RRTParams V) (point : V) : Bool :=
  decide (distance point P.goal_q ≤ 0.2)

/-- Backtracking loop of `find_path`: follow `edges[idx-1][0]` parent links,
collecting the visited vertices until reaching vertex 0.  The Python
`while` loop is unbounded; the model supplies fuel, which suffices for
every terminating execution of the source. -/
noncomputable def backtrack (edges : List (ℕ × ℕ)) (vertices : List V) :
    ℕ → ℕ → List V
  | 0, _ => []
  | fuel + 1, idx =>
      if idx = 0 then []
      else vertices.getD idx 0 ::
        backtrack edges vertices fuel (edges.getD (idx - 1) (0, 0)).1

/-- `find_path(tree)`: start from `[goal_q]`, backtrack from the child of
the last edge to the root, append `cur_q`, and reverse. -/
noncomputable def find_path (P : RRTParams V) (vertices : List V)
    (edges : List (ℕ × ℕ)) : List V :=
  let goal_idx := (edges.getD (edges.length - 1) (0, 0)).2
  ((P.goal_q :: backtrack edges vertices vertices.length goal_idx) ++ [P.cur_q]).reverse

/-- State at the top of `generate_path()`: fresh tree seeded with the start
configuration at index 0 and `cost[0] = 0`, `path = None`. -/
noncomputable def initState (P : RRTParams V) : RRTState V :=
  { vertices := [P.cur_q], edges := [], cost := [0], path := Option.none }

/-- One iteration of the `generate_path()` loop at iteration counter `k`. -/
noncomputable def rrtStep (P : RRTParams V) (k : ℕ) (s : RRTState V) : RRTState V :=
  let rand_q := P.sample k
  let nn := nearest_neighbor rand_q s.vertices
  let new_q := new_state P.delta_dis nn.1 rand_q
  if P.collision_free new_q && P.q_in_limits new_q then
    let neighbor_indexes := find_near_neighbor P new_q s.vertices
    let min_cost0 := get_new_cost s.cost nn.2 nn.1 new_q
    let mc := get_minimum_cost P s.vertices s.cost neighbor_indexes new_q min_cost0 nn.2
    let vertices' := s.vertices ++ [new_q]
    let new_idx := vertices'.length - 1
    let cost' := s.cost ++ [mc.1]
    let edges' := s.edges ++ [(mc.2, new_idx)]
    let ce := rewire P vertices' neighbor_indexes new_q new_idx cost' edges'
    { vertices := vertices'
      edges := ce.2
      cost := ce.1
      path := if reach_to_goal P new_q then some (find_path P vertices' ce.2) else s.path }
  else s

/-- Planner state after `k` iterations of the `generate_path()` loop. -/
noncomputable def rrtRun (P : RRTParams V) : ℕ → RRTState V
  | 0 => initState P
  | k + 1 => rrtStep P k (rrtRun P k)

/-- `generate_path()`: run `max_iter` iterations and return the `path`
variable (`None` when no vertex ever satisfied the goal check). -/
noncomputable def generate_path (P : RRTParams V) : Option (List V) :=
  (rrtRun P P.max_iter).path

/-- Steered configuration of iteration `k` (the `new_q` the loop computes
from the sample and the nearest vertex of the current tree). -/
noncomputable def iterNewQ (P : RRTParams V) (k : ℕ) : V :=
  new_state P.delta_dis (nearest_neighbor (P.sample k) (rrtRun P k).vertices).1 (P.sample k)

/-- Parent map induced by the positional edge list: vertex 0 is the root
(no parent recorded; we map it to itself), vertex `w+1` has parent
`edges[w].1`. -/
def parentOf (edges : List (ℕ × ℕ)) : ℕ → ℕ
  | 0 => 0
  | w + 1 => (edges.getD w (0, 0)).1

/-- Tree/cost invariant on a `(vertices, cost, edges)` triple; maintained
by every tree mutation of `generate_path()`, including each individual
rewiring assignment. -/
structure CEInv (vertices : List V) (cost : List ℝ) (edges : List (ℕ × ℕ)) : Prop where
  clen : cost.length = vertices.length
  elen : edges.length + 1 = vertices.length
  child : ∀ j < edges.length, (edges.getD j (0, 0)).2 = j + 1
  prange : ∀ j < edges.length, (edges.getD j (0, 0)).1 < vertices.length
  czero : cost.getD 0 0 = 0
  cnonneg : ∀ i, 0 ≤ cost.getD i 0
  pcost : ∀ j < edges.length,
    cost.getD (edges.getD j (0, 0)).1 0 +
      distance (vertices.getD (edges.getD j (0, 0)).1 0) (vertices.getD (j + 1) 0)
      ≤ cost.getD (j + 1) 0
  reach : ∀ v < vertices.length, ∃ m, (parentOf edges)^[m] v = 0

/-- Tree/cost invariant of a full planner state. -/
def TreeInv (s : RRTState V) : Prop :=
  0 < s.vertices.length ∧ CEInv s.vertices s.cost s.edges

end Planner

section Setup

/-!
Model of `setup_start_goal_joint` / `_check_q_data` / `_check_init_collision`.
Configurations here are plain lists over a scalar type `α` (only zero-ness
of entries matters, via numpy's `.all()` truthiness), so that the model is
executable.  A Python value passed for `current_q`/`goal_q` is `None`, an
`np.ndarray`, or a plain sequence.
-/

variable {α : Type} [Zero α] [DecidableEq α]

/-- Python value supplied for a configuration argument. -/
inductive PyVal (α : Type) where
  | none : PyVal α
  | arr : List α → PyVal α
  | pylist : List α → PyVal α
deriving DecidableEq

/-- Result of `np.array(x)`: either a real array of scalars or the 0-d
object array `np.array(None)`. -/
inductive NpLike (α : Type) where
  | arrNone : NpLike α
  | arrList : List α → NpLike α
deriving DecidableEq

/-- Exceptions raised on the modelled paths: `NotFoundError` from
`_check_q_data`, Python's `AttributeError` (calling `.all()` on `None` or a
plain list), and `CollisionError` carrying the offending name pair. -/
inductive PyErr where
  | notFound : PyErr
  | attrErr : PyErr
  | collisionErr : String × String → PyErr
deriving DecidableEq

/-- `np.array(l).all()`: true iff every entry is nonzero (true on the empty
array). -/
def npAll (l : List α) : Bool := l.all (fun x => decide (x ≠ 0))

/-- Truthiness of `.all()` on an `NpLike`: `np.array(None).all()` is falsy
(`None` is falsy), otherwise `npAll`. -/
def npTruthy : NpLike α → Bool
  | NpLike.arrNone => false
  | NpLike.arrList l => npAll l

/-- `np.array(v)` for a supplied Python value. -/
def npConv : PyVal α → NpLike α
  | PyVal.none => NpLike.arrNone
  | PyVal.arr l => NpLike.arrList l
  | PyVal.pylist l => NpLike.arrList l

/-- `len` of a converted configuration (`len` of a 0-d array raises in
Python; that case is unreachable on the success path modelled here). -/
def npLen : NpLike α → ℕ
  | NpLike.arrNone => 0
  | NpLike.arrList l => l.length

/-- `_check_q_data(current_q, goal_q)`: the source's condition is
`current_q.all() or goal_q.all() is None`.  Python evaluates
`current_q.all()` first and raises `NotFoundError` if it is truthy;
otherwise it evaluates `goal_q.all()`, which raises `AttributeError`
unless `goal_q` is an ndarray, and compares the resulting `np.bool_`
with `None` — always false, so no further raise. -/
def check_q_data (current_q : NpLike α) (goal_q : PyVal α) : Except PyErr Bool :=
  if npTruthy current_q then Except.error PyErr.notFound
  else
    match goal_q with
    | PyVal.arr _ => Except.ok true
    | _ => Except.error PyErr.attrErr

/-- `"obstacle" in name` — Python substring test. -/
def strContains (s pat : String) : Bool := decide (pat.toList <:+: s.toList)

/-- Colliding pair in which both names contain `"obstacle"` (skipped by
`_check_init_collision`). -/
def is_obstacle_pair (p : String × String) : Bool :=
  strContains p.1 "obstacle" && strContains p.2 "obstacle"

/-- First reported pair that is not obstacle-obstacle, if any. -/
def first_offending : List (String × String) → Option (String × String)
  | [] => Option.none
  | p :: rest => if is_obstacle_pair p then first_offending rest else some p

/-- `_check_init_collision()`: the collision oracle's report on the start
configuration is the explicit input `res = (is_collision, obj_names)`.
When a collision is reported, raise `CollisionError` on the first pair that
is not obstacle-obstacle. -/
def check_init_collision (res : Bool × List (String × String)) : Except PyErr Unit :=
  if res.1 then
    match first_offending res.2 with
    | some p => Except.error (PyErr.collisionErr p)
    | Option.none => Except.ok ()
  else Except.ok ()

/-- Planner attributes assigned by a successful `setup_start_goal_joint`. -/
structure SetupResult (α : Type) where
  cur_q : NpLike α
  goal_q : PyVal α
  dimension : ℕ
deriving DecidableEq

/-- `setup_start_goal_joint(current_q, goal_q, ...)`.  Faithful to the
source's two conversion branches: `current_q` is converted with `np.array`
when it is not an ndarray, and — the source's slip — when `goal_q` is not
an ndarray the converted `np.array(goal_q)` is assigned to **current_q**
(line `current_q = np.array(goal_q)`), while `goal_q` itself is left
untouched.  Then `_check_q_data` runs, the attributes are assigned, and
setup ends with `_check_init_collision` (whose oracle report is the
explicit `collision` input). -/
def setup_start_goal_joint (current_q goal_q : PyVal α)
    (collision : Bool × List (String × String)) : Except PyErr (SetupResult α) :=
  let current1 := npConv current_q
  let current2 := match goal_q with
    | PyVal.arr _ => current1
    | v => npConv v
  match check_q_data current2 goal_q with
  | Except.error e => Except.error e
  | Except.ok _ =>
      match check_init_collision collision with
      | Except.error e => Except.error e
      | Except.ok _ =>
          Except.ok { cur_q := current2, goal_q := goal_q, dimension := npLen current2 }

end Setup

section Concrete

/-!
Concrete planner instantiations used by counterexamples and witnesses.
`ℝ` (one joint) and `EuclideanSpace ℝ (Fin 2)` (two joints, numpy's
Euclidean norm) are instances of the normed-space parameter.
-/

noncomputable instance : DecidableEq (EuclideanSpace ℝ (Fin 2)) :=
  fun x y => Classical.dec (x = y)

/-- Point of the Euclidean plane `ℝ^2` (a two-joint configuration). -/
noncomputable def pt2 (a b : ℝ) : EuclideanSpace ℝ (Fin 2) := ![a, b]

/-- One-joint planner whose first sample coincides exactly with the start
configuration; everything is collision-free and within limits. -/
noncomputable def Pex : RRTParams ℝ :=
  { delta_dis := 1, gamma_RRTs := 100, dimension := 1, max_iter := 1,
    cur_q := 0, goal_q := 100,
    collision_free := fun _ => true, q_in_limits := fun _ => true,
    sample := fun _ => 0 }

/-- Two-joint planner in the Euclidean plane whose four samples build a
tree with a suboptimally-costed vertex, a child of it, and then a vertex
that rewires it. -/
noncomputable def PC2 : RRTParams (EuclideanSpace ℝ (Fin 2)) :=
  { delta_dis := 5, gamma_RRTs := 100, dimension := 2, max_iter := 4,
    cur_q := pt2 0 0, goal_q := pt2 1000 0,
    collision_free := fun _ => true, q_in_limits := fun _ => true,
    sample := fun k =>
      if k = 0 then pt2 3 4 else if k = 1 then pt2 7 1
      else if k = 2 then pt2 10 5 else pt2 3 0 }

/-- One-joint planner with iteration budget 1 whose start and goal are 100
apart while the step size is 0.01 (spec Scenario C). -/
noncomputable def Pfar : RRTParams ℝ :=
  { delta_dis := 0.01, gamma_RRTs := 300, dimension := 1, max_iter := 1,
    cur_q := 0, goal_q := 100,
    collision_free := fun _ => true, q_in_limits := fun _ => true,
    sample := fun _ => 50 }

/-- One-joint planner whose collision oracle rejects every configuration. -/
noncomputable def Pcol : RRTParams ℝ :=
  { delta_dis := 1, gamma_RRTs := 100, dimension := 1, max_iter := 1,
    cur_q := 0, goal_q := 100,
    collision_free := fun _ => false, q_in_limits := fun _ => true,
    sample := fun _ => 3 }

end Concrete

section ListHelpers

variable {β : Type}

theorem getD_set_self (l : List β) (i : ℕ) (a d : β) (h : i < l.length) :
    (l.set i a).getD i d = a := by
  rw [List.getD_eq_getElem?_getD, List.getElem?_set_self h, Option.getD_some]

theorem getD_set_ne (l : List β) (i j : ℕ) (a d : β) (h : i ≠ j) :
    (l.set i a).getD j d = l.getD j d := by
  rw [List.getD_eq_getElem?_getD, List.getElem?_set_ne h, ← List.getD_eq_getElem?_getD]

theorem getD_append_last (l : List β) (a d : β) :
    (l ++ [a]).getD l.length d = a := by
  rw [List.getD_append_right _ _ _ _ (le_refl _), Nat.sub_self]
  rfl

end ListHelpers

section BasicLemmas

variable {V : Type} [NormedAddCommGroup V] [NormedSpace ℝ V] [DecidableEq V]

theorem distance_nonneg (A B : V) : 0 ≤ distance A B := norm_nonneg _

theorem distance_comm (A B : V) : distance A B = distance B A := norm_sub_rev _ _

theorem argminAux_lt (ds : List ℝ) :
    ∀ (i best_idx : ℕ) (best_val : ℝ) (n : ℕ),
      best_idx < n → i + ds.length ≤ n → argminAux ds i best_idx best_val < n := by
  induction ds with
  | nil => intro i bi bv n hbi _; simpa [argminAux] using hbi
  | cons d ds ih =>
      intro i bi bv n hbi hlen
      simp only [List.length_cons] at hlen
      simp only [argminAux]
      by_cases hd : d < bv
      · rw [if_pos hd]
        exact ih (i + 1) i d n (by omega) (by omega)
      · rw [if_neg hd]
        exact ih (i + 1) bi bv n hbi (by omega)

theorem np_argmin_lt (l : List ℝ) (h : l ≠ []) : np_argmin l < l.length := by
  cases l with
  | nil => exact absurd rfl h
  | cons d ds =>
      simp only [np_argmin, List.length_cons]
      exact argminAux_lt ds 1 0 d (ds.length + 1) (by omega) (by omega)

theorem nearest_neighbor_snd_lt (r : V) (vs : List V) (h : vs ≠ []) :
    (nearest_neighbor r vs).2 < vs.length := by
  have : (vs.map (fun vertex => distance r vertex)) ≠ [] := by
    simpa using h
  simpa [nearest_neighbor] using np_argmin_lt _ this

theorem nearest_neighbor_fst (r : V) (vs : List V) :
    (nearest_neighbor r vs).1 = vs.getD (nearest_neighbor r vs).2 0 := rfl

theorem mem_find_near_neighbor (P : RRTParams V) (q : V) (vs : List V) (i : ℕ) :
    i ∈ find_near_neighbor P q vs ↔
      i < vs.length ∧
        distance (vs.getD i 0) q ≤
          min (P.gamma_RRTs *
              (Real.log ((vs.length + 1 : ℕ) : ℝ) / ((vs.length + 1 : ℕ) : ℝ)) ^
                ((1 : ℝ) / (P.dimension : ℝ)))
            P.delta_dis ∧
        P.collision_free q = true := by
  simp [find_near_neighbor, List.mem_filter, List.mem_range, and_assoc]

theorem find_near_neighbor_lt (P : RRTParams V) (q : V) (vs : List V) (i : ℕ)
    (h : i ∈ find_near_neighbor P q vs) : i < vs.length :=
  ((mem_find_near_neighbor P q vs i).1 h).1

theorem get_minimum_cost_nil (P : RRTParams V) (vs : List V) (cost : List ℝ)
    (q : V) (mc : ℝ) (ni : ℕ) :
    get_minimum_cost P vs cost [] q mc ni = (mc, ni) := rfl

theorem get_minimum_cost_cons (P : RRTParams V) (vs : List V) (cost : List ℝ)
    (i : ℕ) (L : List ℕ) (q : V) (mc : ℝ) (ni : ℕ) :
    get_minimum_cost P vs cost (i :: L) q mc ni =
      (if get_new_cost cost i q (vs.getD i 0) < mc ∧ P.collision_free q = true then
        get_minimum_cost P vs cost L q (get_new_cost cost i q (vs.getD i 0)) i
      else
        get_minimum_cost P vs cost L q mc ni) := by
  simp only [get_minimum_cost, List.foldl_cons]
  split <;> rfl

theorem rewire_nil (P : RRTParams V) (vs : List V) (q : V) (ni : ℕ)
    (cost : List ℝ) (edges : List (ℕ × ℕ)) :
    rewire P vs [] q ni cost edges = (cost, edges) := rfl

theorem rewire_cons (P : RRTParams V) (vs : List V) (i : ℕ) (L : List ℕ)
    (q : V) (ni : ℕ) (cost : List ℝ) (edges : List (ℕ × ℕ)) :
    rewire P vs (i :: L) q ni cost edges =
      (if P.collision_free (vs.getD i 0) = true ∧
          get_new_cost cost ni q (vs.getD i 0) < cost.getD i 0 then
        rewire P vs L q ni (cost.set i (get_new_cost cost ni q (vs.getD i 0)))
          (edges.set (if i = 0 then edges.length - 1 else i - 1)
            (ni, (edges.getD (if i = 0 then edges.length - 1 else i - 1) (0, 0)).2))
      else rewire P vs L q ni cost edges) := by
  simp only [rewire, List.foldl_cons]
  split <;> rfl

end BasicLemmas

section Invariant

variable {V : Type} [NormedAddCommGroup V] [NormedSpace ℝ V] [DecidableEq V]

theorem CEInv.vlen_pos {vs : List V} {cost : List ℝ} {edges : List (ℕ × ℕ)}
    (h : CEInv vs cost edges) : 0 < vs.length := by
  have := h.elen
  omega

theorem CEInv.cost_par_le {vs : List V} {cost : List ℝ} {edges : List (ℕ × ℕ)}
    (h : CEInv vs cost edges) (v : ℕ) :
    cost.getD (parentOf edges v) 0 ≤ cost.getD v 0 := by
  cases v with
  | zero => exact le_refl _
  | succ w =>
      simp only [parentOf]
      by_cases hw : w < edges.length
      · have h1 := h.pcost w hw
        have h2 := distance_nonneg (vs.getD (edges.getD w (0, 0)).1 0) (vs.getD (w + 1) 0)
        linarith
      · rw [List.getD_eq_default _ _ (by omega : edges.length ≤ w)]
        show cost.getD 0 0 ≤ _
        rw [h.czero]
        exact h.cnonneg _

theorem CEInv.cost_iter_le {vs : List V} {cost : List ℝ} {edges : List (ℕ × ℕ)}
    (h : CEInv vs cost edges) (m v : ℕ) :
    cost.getD ((parentOf edges)^[m] v) 0 ≤ cost.getD v 0 := by
  induction m with
  | zero => exact le_refl _
  | succ m ih =>
      rw [Function.iterate_succ_apply']
      exact le_trans (h.cost_par_le _) ih

theorem CEInv.parentOf_lt {vs : List V} {cost : List ℝ} {edges : List (ℕ × ℕ)}
    (h : CEInv vs cost edges) {v : ℕ} (hv : v < vs.length) :
    parentOf edges v < vs.length := by
  cases v with
  | zero => exact h.vlen_pos
  | succ w =>
      have := h.elen
      exact h.prange w (by omega)

theorem CEInv.chain_in_range {vs : List V} {cost : List ℝ} {edges : List (ℕ × ℕ)}
    (h : CEInv vs cost edges) {v : ℕ} (hv : v < vs.length) (m : ℕ) :
    (parentOf edges)^[m] v < vs.length := by
  induction m with
  | zero => exact hv
  | succ m ih =>
      rw [Function.iterate_succ_apply']
      exact h.parentOf_lt ih

theorem CEInv.reach_bound {vs : List V} {cost : List ℝ} {edges : List (ℕ × ℕ)}
    (h : CEInv vs cost edges) {v : ℕ} (hv : v < vs.length)
    (hr : ∃ m, (parentOf edges)^[m] v = 0) :
    ∃ m ≤ vs.length, (parentOf edges)^[m] v = 0 := by
  classical
  obtain ⟨m0, hm0, hmin⟩ :
      ∃ m0, (parentOf edges)^[m0] v = 0 ∧ ∀ j < m0, (parentOf edges)^[j] v ≠ 0 :=
    ⟨Nat.find hr, Nat.find_spec hr, fun j hj => Nat.find_min hr hj⟩
  refine ⟨m0, ?_, hm0⟩
  by_contra hgt
  push_neg at hgt
  have key : ∀ a b, a < b → b < m0 →
      (parentOf edges)^[a] v = (parentOf edges)^[b] v → False := by
    intro a b hab hb heq
    have h1 : (parentOf edges)^[m0] v = (parentOf edges)^[m0 - b + a] v := by
      conv_lhs => rw [show m0 = m0 - b + b by omega]
      rw [Function.iterate_add_apply, ← heq, ← Function.iterate_add_apply]
    exact hmin (m0 - b + a) (by omega) (by rw [← h1]; exact hm0)
  have hmap : ∀ j ∈ Finset.range m0,
      (parentOf edges)^[j] v ∈ (Finset.range vs.length).erase 0 := by
    intro j hj
    rw [Finset.mem_erase, Finset.mem_range]
    exact ⟨hmin j (Finset.mem_range.1 hj), h.chain_in_range hv j⟩
  have hinj : Set.InjOn (fun j => (parentOf edges)^[j] v) (Finset.range m0) := by
    intro a ha b hb heq
    rw [Finset.coe_range, Set.mem_Iio] at ha hb
    by_contra hne
    rcases Nat.lt_or_ge a b with hlt | hge
    · exact key a b hlt hb heq
    · exact key b a (by omega) ha heq.symm
  have hcard := Finset.card_le_card_of_injOn _ hmap hinj
  rw [Finset.card_range,
    Finset.card_erase_of_mem (Finset.mem_range.2 h.vlen_pos), Finset.card_range] at hcard
  omega

theorem get_minimum_cost_spec (P : RRTParams V) (vs : List V) (cost : List ℝ) (q : V) :
    ∀ (L : List ℕ) (mc : ℝ) (ni : ℕ) (n : ℕ), (∀ i ∈ L, i < n) → ni < n →
      mc = cost.getD ni 0 + distance (vs.getD ni 0) q →
      (get_minimum_cost P vs cost L q mc ni).2 < n ∧
        (get_minimum_cost P vs cost L q mc ni).1 =
          cost.getD (get_minimum_cost P vs cost L q mc ni).2 0 +
            distance (vs.getD (get_minimum_cost P vs cost L q mc ni).2 0) q := by
  intro L
  induction L with
  | nil =>
      intro mc ni n hL hni hmc
      rw [get_minimum_cost_nil]
      exact ⟨hni, hmc⟩
  | cons i L ih =>
      intro mc ni n hL hni hmc
      rw [get_minimum_cost_cons]
      split
      · exact ih _ _ n (fun j hj => hL j (List.mem_cons_of_mem _ hj))
          (hL i (List.mem_cons_self _ _))
          (by rw [get_new_cost, distance_comm])
      · exact ih _ _ n (fun j hj => hL j (List.mem_cons_of_mem _ hj)) hni hmc

theorem parentOf_set (edges : List (ℕ × ℕ)) (i ni : ℕ) (hi : 1 ≤ i)
    (hlt : i - 1 < edges.length) (x : ℕ) (v : ℕ) :
    parentOf (edges.set (i - 1) (ni, x)) v = if v = i then ni else parentOf edges v := by
  cases v with
  | zero => rw [if_neg (by omega)]; rfl
  | succ w =>
      simp only [parentOf]
      by_cases hw : w + 1 = i
      · rw [if_pos hw, show w = i - 1 by omega, getD_set_self _ _ _ _ hlt]
      · rw [if_neg hw, getD_set_ne _ _ _ _ _ (by omega)]

theorem iterate_parentOf_set_of_avoid (edges : List (ℕ × ℕ)) (i ni : ℕ) (hi : 1 ≤ i)
    (hlt : i - 1 < edges.length) (x : ℕ) :
    ∀ (m w : ℕ), (∀ t, (parentOf edges)^[t] w ≠ i) →
      (parentOf (edges.set (i - 1) (ni, x)))^[m] w = (parentOf edges)^[m] w := by
  intro m
  induction m with
  | zero => intro w _; rfl
  | succ m ih =>
      intro w havoid
      rw [Function.iterate_succ_apply, Function.iterate_succ_apply]
      have hfw : parentOf (edges.set (i - 1) (ni, x)) w = parentOf edges w := by
        rw [parentOf_set edges i ni hi hlt x w,
          if_neg (show w ≠ i by simpa using havoid 0)]
      rw [hfw]
      exact ih (parentOf edges w) (fun t => by
        rw [← Function.iterate_succ_apply]
        exact havoid (t + 1))

theorem reach_parentOf_set (edges : List (ℕ × ℕ)) (i ni : ℕ) (hi : 1 ≤ i)
    (hlt : i - 1 < edges.length) (x : ℕ)
    (havoidNi : ∀ t, (parentOf edges)^[t] ni ≠ i)
    (hreachNi : ∃ m, (parentOf edges)^[m] ni = 0) :
    ∀ (m v : ℕ), (parentOf edges)^[m] v = 0 →
      ∃ m', (parentOf (edges.set (i - 1) (ni, x)))^[m'] v = 0 := by
  intro m
  induction m with
  | zero => intro v hv; exact ⟨0, hv⟩
  | succ m ih =>
      intro v hv
      by_cases hv0 : v = 0
      · exact ⟨0, hv0⟩
      by_cases hvi : v = i
      · obtain ⟨mN, hmN⟩ := hreachNi
        refine ⟨mN + 1, ?_⟩
        rw [Function.iterate_succ_apply,
          parentOf_set edges i ni hi hlt x v, if_pos hvi,
          iterate_parentOf_set_of_avoid edges i ni hi hlt x mN ni havoidNi, hmN]
      · have hv' : (parentOf edges)^[m] (parentOf edges v) = 0 := by
          rw [← Function.iterate_succ_apply]
          exact hv
        obtain ⟨m', hm'⟩ := ih (parentOf edges v) hv'
        refine ⟨m' + 1, ?_⟩
        rw [Function.iterate_succ_apply,
          parentOf_set edges i ni hi hlt x v, if_neg hvi]
        exact hm'

theorem CEInv_rewire_set (vs : List V) (cost : List ℝ) (edges : List (ℕ × ℕ))
    (q : V) (ni i : ℕ)
    (h : CEInv vs cost edges) (hni : ni + 1 = vs.length) (hq : vs.getD ni 0 = q)
    (hi : i < ni)
    (hfire : get_new_cost cost ni q (vs.getD i 0) < cost.getD i 0) :
    CEInv vs (cost.set i (get_new_cost cost ni q (vs.getD i 0)))
      (edges.set (if i = 0 then edges.length - 1 else i - 1)
        (ni, (edges.getD (if i = 0 then edges.length - 1 else i - 1) (0, 0)).2)) := by
  have hi0 : i ≠ 0 := by
    intro h0
    subst h0
    have h1 : (0 : ℝ) ≤ cost.getD ni 0 := h.cnonneg ni
    have h2 := distance_nonneg q (vs.getD 0 0)
    rw [h.czero] at hfire
    unfold get_new_cost at hfire
    linarith
  simp only [if_neg hi0]
  have helen := h.elen
  have hclen := h.clen
  have hedg : edges.length = ni := by omega
  have hjlt : i - 1 < edges.length := by omega
  have hilen : i < cost.length := by omega
  have hine : i ≠ ni := by omega
  have hnn : (0 : ℝ) ≤ get_new_cost cost ni q (vs.getD i 0) := by
    unfold get_new_cost
    have := h.cnonneg ni
    have := distance_nonneg q (vs.getD i 0)
    linarith
  refine ⟨?_, ?_, ?_, ?_, ?_, ?_, ?_, ?_⟩
  · rw [List.length_set]; exact h.clen
  · rw [List.length_set]; exact h.elen
  · intro j hj
    rw [List.length_set] at hj
    by_cases hji : j = i - 1
    · subst hji
      rw [getD_set_self _ _ _ _ hjlt]
      exact h.child _ hj
    · rw [getD_set_ne _ _ _ _ _ (fun hEq => hji hEq.symm)]
      exact h.child j hj
  · intro j hj
    rw [List.length_set] at hj
    by_cases hji : j = i - 1
    · subst hji
      rw [getD_set_self _ _ _ _ hjlt]
      omega
    · rw [getD_set_ne _ _ _ _ _ (fun hEq => hji hEq.symm)]
      exact h.prange j hj
  · rw [getD_set_ne _ _ _ _ _ hi0]
    exact h.czero
  · intro j
    by_cases hji : j = i
    · subst hji
      rw [getD_set_self _ _ _ _ hilen]
      exact hnn
    · rw [getD_set_ne _ _ _ _ _ (fun hEq => hji hEq.symm)]
      exact h.cnonneg j
  · intro j hj
    rw [List.length_set] at hj
    by_cases hji : j = i - 1
    · subst hji
      rw [getD_set_self _ _ _ _ hjlt]
      have hchild : i - 1 + 1 = i := by omega
      rw [hchild]
      simp only
      rw [getD_set_ne _ _ _ _ _ hine, getD_set_self _ _ _ _ hilen, hq]
      unfold get_new_cost
      exact le_refl _
    · rw [getD_set_ne _ _ _ _ _ (fun hEq => hji hEq.symm)]
      have hcne : j + 1 ≠ i := by omega
      rw [getD_set_ne _ _ _ _ _ (fun hEq => hcne hEq.symm)]
      have hbase := h.pcost j hj
      have hpar : (cost.set i (get_new_cost cost ni q (vs.getD i 0))).getD
          (edges.getD j (0, 0)).1 0 ≤ cost.getD (edges.getD j (0, 0)).1 0 := by
        by_cases hpi : (edges.getD j (0, 0)).1 = i
        · rw [hpi, getD_set_self _ _ _ _ hilen]
          exact le_of_lt hfire
        · rw [getD_set_ne _ _ _ _ _ (fun hEq => hpi hEq.symm)]
      linarith
  · intro v hv
    have havoidNi : ∀ t, (parentOf edges)^[t] ni ≠ i := by
      intro t hEq
      have h1 : cost.getD i 0 ≤ cost.getD ni 0 := by
        rw [← hEq]
        exact h.cost_iter_le t ni
      have h2 : cost.getD ni 0 ≤ get_new_cost cost ni q (vs.getD i 0) := by
        unfold get_new_cost
        have := distance_nonneg q (vs.getD i 0)
        linarith
      linarith
    obtain ⟨m, hm⟩ := h.reach v hv
    exact reach_parentOf_set edges i ni (by omega) hjlt _ havoidNi
      (h.reach ni (by omega)) m v hm

theorem CEInv_rewire (P : RRTParams V) (vs : List V) (q : V) (ni : ℕ)
    (hni : ni + 1 = vs.length) (hq : vs.getD ni 0 = q) :
    ∀ (L : List ℕ) (cost : List ℝ) (edges : List (ℕ × ℕ)),
      (∀ i ∈ L, i < ni) → CEInv vs cost edges →
      CEInv vs (rewire P vs L q ni cost edges).1 (rewire P vs L q ni cost edges).2 := by
  intro L
  induction L with
  | nil =>
      intro cost edges _ h
      rw [rewire_nil]
      exact h
  | cons i L ih =>
      intro cost edges hL h
      rw [rewire_cons]
      split
      case isTrue hcond =>
        exact ih _ _ (fun j hj => hL j (List.mem_cons_of_mem _ hj))
          (CEInv_rewire_set vs cost edges q ni i h hni hq
            (hL i (List.mem_cons_self _ _)) hcond.2)
      case isFalse hcond =>
        exact ih _ _ (fun j hj => hL j (List.mem_cons_of_mem _ hj)) h

theorem parentOf_append_lt (edges : List (ℕ × ℕ)) (e : ℕ × ℕ) {w : ℕ}
    (hw : w < edges.length + 1) : parentOf (edges ++ [e]) w = parentOf edges w := by
  cases w with
  | zero => rfl
  | succ u =>
      simp only [parentOf]
      rw [List.getD_append _ _ _ _ (by omega : u < edges.length)]

theorem parentOf_append_last (edges : List (ℕ × ℕ)) (e : ℕ × ℕ) :
    parentOf (edges ++ [e]) (edges.length + 1) = e.1 := by
  simp only [parentOf]
  rw [getD_append_last]

theorem CEInv_append (vs : List V) (cost : List ℝ) (edges : List (ℕ × ℕ))
    (h : CEInv vs cost edges) (q : V) (mc : ℝ) (p : ℕ)
    (hp : p < vs.length) (hmc : mc = cost.getD p 0 + distance (vs.getD p 0) q) :
    CEInv (vs ++ [q]) (cost ++ [mc]) (edges ++ [(p, vs.length)]) := by
  have helen := h.elen
  have hclen := h.clen
  have htrans : ∀ (m w : ℕ), w < vs.length →
      (parentOf (edges ++ [(p, vs.length)]))^[m] w = (parentOf edges)^[m] w := by
    intro m
    induction m with
    | zero => intro w _; rfl
    | succ m ih =>
        intro w hw
        rw [Function.iterate_succ_apply, Function.iterate_succ_apply,
          parentOf_append_lt edges _ (by omega)]
        exact ih (parentOf edges w) (h.parentOf_lt hw)
  refine ⟨?_, ?_, ?_, ?_, ?_, ?_, ?_, ?_⟩
  · simp [h.clen]
  · simp [← h.elen]
  · intro j hj
    simp only [List.length_append, List.length_cons, List.length_nil] at hj
    by_cases hje : j < edges.length
    · rw [List.getD_append _ _ _ _ hje]
      exact h.child j hje
    · have hje' : j = edges.length := by omega
      subst hje'
      rw [getD_append_last]
      omega
  · intro j hj
    simp only [List.length_append, List.length_cons, List.length_nil] at hj ⊢
    by_cases hje : j < edges.length
    · rw [List.getD_append _ _ _ _ hje]
      have := h.prange j hje
      omega
    · have hje' : j = edges.length := by omega
      subst hje'
      rw [getD_append_last]
      omega
  · rw [List.getD_append _ _ _ _ (by omega : 0 < cost.length)]
    exact h.czero
  · intro j
    rcases Nat.lt_trichotomy j cost.length with hlt | heq | hgt
    · rw [List.getD_append _ _ _ _ hlt]
      exact h.cnonneg j
    · subst heq
      rw [getD_append_last]
      rw [hmc]
      have := h.cnonneg p
      have := distance_nonneg (vs.getD p 0) q
      linarith
    · rw [List.getD_eq_default _ _ (by simp; omega)]
  · intro j hj
    simp only [List.length_append, List.length_cons, List.length_nil] at hj
    by_cases hje : j < edges.length
    · rw [List.getD_append _ _ _ _ hje]
      have hpar := h.prange j hje
      rw [List.getD_append _ _ _ _ (by omega : (edges.getD j (0, 0)).1 < cost.length),
        List.getD_append _ _ _ _ hpar,
        List.getD_append _ _ _ _ (by omega : j + 1 < vs.length),
        List.getD_append _ _ _ _ (by omega : j + 1 < cost.length)]
      exact h.pcost j hje
    · have hje' : j = edges.length := by omega
      subst hje'
      rw [getD_append_last]
      simp only
      have hj1 : edges.length + 1 = vs.length := helen
      rw [hj1]
      rw [List.getD_append _ _ _ _ (by omega : p < cost.length),
        List.getD_append _ _ _ _ hp]
      have hq' : (vs ++ [q]).getD vs.length 0 = q := getD_append_last _ _ _
      have hmcq : (cost ++ [mc]).getD vs.length 0 = mc := by
        rw [← hclen]
        exact getD_append_last _ _ _
      rw [hq', hmcq, hmc]
  · intro v hv
    simp only [List.length_append, List.length_cons, List.length_nil] at hv
    by_cases hvlt : v < vs.length
    · obtain ⟨m, hm⟩ := h.reach v hvlt
      exact ⟨m, by rw [htrans m v hvlt]; exact hm⟩
    · have hveq : v = vs.length := by omega
      obtain ⟨m, hm⟩ := h.reach p hp
      refine ⟨m + 1, ?_⟩
      rw [Function.iterate_succ_apply]
      have hlast : parentOf (edges ++ [(p, vs.length)]) v = p := by
        have h1 := parentOf_append_last edges (p, vs.length)
        rw [helen] at h1
        rw [hveq]
        exact h1
      rw [hlast, htrans m p hp]
      exact hm

theorem TreeInv_init (P : RRTParams V) : TreeInv (initState P) := by
  refine ⟨by simp [initState], ?_, ?_, ?_, ?_, ?_, ?_, ?_, ?_⟩
  · rfl
  · rfl
  · intro j hj; simp [initState] at hj
  · intro j hj; simp [initState] at hj
  · rfl
  · intro i
    rcases i with _ | i
    · exact le_refl _
    · rw [List.getD_eq_default _ _ (by simp [initState])]
  · intro j hj; simp [initState] at hj
  · intro v hv
    simp only [initState, List.length_cons, List.length_nil] at hv
    have hv0 : v = 0 := by omega
    exact ⟨0, hv0⟩

theorem TreeInv_rrtStep (P : RRTParams V) (k : ℕ) (s : RRTState V)
    (h : TreeInv s) : TreeInv (rrtStep P k s) := by
  obtain ⟨hvpos, hce⟩ := h
  simp only [rrtStep]
  split
  case isFalse => exact ⟨hvpos, hce⟩
  case isTrue hguard =>
    simp only [List.length_append, List.length_cons, List.length_nil, Nat.add_sub_cancel]
    set rand := P.sample k with hrand
    set nn := nearest_neighbor rand s.vertices with hnn
    set nq := new_state P.delta_dis nn.1 rand with hnq
    have hvne : s.vertices ≠ [] := by
      intro h0
      rw [h0] at hvpos
      simp at hvpos
    have hnn2 : nn.2 < s.vertices.length := by
      rw [hnn]
      exact nearest_neighbor_snd_lt _ _ hvne
    have hmc := get_minimum_cost_spec P s.vertices s.cost nq
      (find_near_neighbor P nq s.vertices)
      (get_new_cost s.cost nn.2 nn.1 nq) nn.2 s.vertices.length
      (fun i hi => find_near_neighbor_lt _ _ _ _ hi) hnn2
      (by rw [get_new_cost, hnn, nearest_neighbor_fst])
    have happ := CEInv_append s.vertices s.cost s.edges hce nq
      (get_minimum_cost P s.vertices s.cost (find_near_neighbor P nq s.vertices) nq
        (get_new_cost s.cost nn.2 nn.1 nq) nn.2).1
      (get_minimum_cost P s.vertices s.cost (find_near_neighbor P nq s.vertices) nq
        (get_new_cost s.cost nn.2 nn.1 nq) nn.2).2
      hmc.1 hmc.2
    have hrew := CEInv_rewire P (s.vertices ++ [nq]) nq s.vertices.length
      (by simp) (getD_append_last _ _ _)
      (find_near_neighbor P nq s.vertices)
      (s.cost ++ [(get_minimum_cost P s.vertices s.cost (find_near_neighbor P nq s.vertices) nq
        (get_new_cost s.cost nn.2 nn.1 nq) nn.2).1])
      (s.edges ++ [((get_minimum_cost P s.vertices s.cost (find_near_neighbor P nq s.vertices) nq
        (get_new_cost s.cost nn.2 nn.1 nq) nn.2).2, s.vertices.length)])
      (fun i hi => find_near_neighbor_lt _ _ _ _ hi) happ
    exact ⟨by simp, hrew⟩

theorem TreeInv_run (P : RRTParams V) (k : ℕ) : TreeInv (rrtRun P k) := by
  induction k with
  | zero => exact TreeInv_init P
  | succ k ih => exact TreeInv_rrtStep P k _ ih

end Invariant

section RunLemmas

variable {V : Type} [NormedAddCommGroup V] [NormedSpace ℝ V] [DecidableEq V]

theorem distance_eq_dist (A B : V) : distance A B = dist A B := by
  rw [distance, dist_eq_norm']

theorem rewire_cost_getD_le (P : RRTParams V) (vs : List V) (q : V) (ni : ℕ) :
    ∀ (L : List ℕ) (cost : List ℝ) (edges : List (ℕ × ℕ)) (i : ℕ),
      (rewire P vs L q ni cost edges).1.getD i 0 ≤ cost.getD i 0 := by
  intro L
  induction L with
  | nil => intro cost edges i; rw [rewire_nil]
  | cons j L ih =>
      intro cost edges i
      rw [rewire_cons]
      split
      case isTrue hcond =>
        refine le_trans (ih _ _ i) ?_
        by_cases hij : j = i
        · subst hij
          by_cases hlen : j < cost.length
          · rw [getD_set_self _ _ _ _ hlen]
            exact le_of_lt hcond.2
          · rw [List.set_eq_of_length_le (by omega)]
        · rw [getD_set_ne _ _ _ _ _ hij]
      case isFalse => exact ih _ _ i

theorem rewire_cost_length (P : RRTParams V) (vs : List V) (q : V) (ni : ℕ) :
    ∀ (L : List ℕ) (cost : List ℝ) (edges : List (ℕ × ℕ)),
      (rewire P vs L q ni cost edges).1.length = cost.length := by
  intro L
  induction L with
  | nil => intro cost edges; rw [rewire_nil]
  | cons j L ih =>
      intro cost edges
      rw [rewire_cons]
      split
      case isTrue => rw [ih]; exact List.length_set ..
      case isFalse => exact ih _ _

theorem rrtStep_cost_getD_le (P : RRTParams V) (k : ℕ) (s : RRTState V) (i : ℕ)
    (hi : i < s.cost.length) :
    (rrtStep P k s).cost.getD i 0 ≤ s.cost.getD i 0 := by
  simp only [rrtStep]
  split
  case isFalse => exact le_refl _
  case isTrue =>
    refine le_trans (rewire_cost_getD_le P _ _ _ _ _ _ i) ?_
    rw [List.getD_append _ _ _ _ hi]

theorem rrtStep_cost_length_le (P : RRTParams V) (k : ℕ) (s : RRTState V) :
    s.cost.length ≤ (rrtStep P k s).cost.length := by
  simp only [rrtStep]
  split
  case isFalse => exact le_refl _
  case isTrue => rw [rewire_cost_length]; simp

theorem rrtRun_cost_length_mono (P : RRTParams V) {k k' : ℕ} (h : k ≤ k') :
    (rrtRun P k).cost.length ≤ (rrtRun P k').cost.length := by
  induction k' with
  | zero => simp_all
  | succ k' ih =>
      rcases Nat.lt_or_ge k (k' + 1) with hlt | hge
      · exact le_trans (ih (by omega)) (rrtStep_cost_length_le P k' _)
      · have : k = k' + 1 := by omega
        subst this
        exact le_refl _

theorem rrtRun_cost_getD_mono (P : RRTParams V) {k k' i : ℕ} (h : k ≤ k')
    (hi : i < (rrtRun P k).cost.length) :
    (rrtRun P k').cost.getD i 0 ≤ (rrtRun P k).cost.getD i 0 := by
  induction k' with
  | zero =>
      have : k = 0 := by omega
      subst this
      exact le_refl _
  | succ k' ih =>
      rcases Nat.lt_or_ge k (k' + 1) with hlt | hge
      · have h1 := ih (by omega)
        have h2 : i < (rrtRun P k').cost.length :=
          lt_of_lt_of_le hi (rrtRun_cost_length_mono P (by omega))
        exact le_trans (rrtStep_cost_getD_le P k' _ i h2) h1
      · have : k = k' + 1 := by omega
        subst this
        exact le_refl _

theorem find_path_head (P : RRTParams V) (vs : List V) (edges : List (ℕ × ℕ)) :
    (find_path P vs edges).head? = some P.cur_q := by
  simp [find_path]

theorem rrtStep_path_none_iff (P : RRTParams V) (k : ℕ) (s : RRTState V) :
    (rrtStep P k s).path = Option.none ↔
      s.path = Option.none ∧
        ((P.collision_free
              (new_state P.delta_dis (nearest_neighbor (P.sample k) s.vertices).1
                (P.sample k)) &&
            P.q_in_limits
              (new_state P.delta_dis (nearest_neighbor (P.sample k) s.vertices).1
                (P.sample k))) = true →
          reach_to_goal P
              (new_state P.delta_dis (nearest_neighbor (P.sample k) s.vertices).1
                (P.sample k)) = false) := by
  simp only [rrtStep]
  split
  case isFalse hg =>
    constructor
    · intro h1
      exact ⟨h1, fun hc => absurd hc (by simp_all)⟩
    · intro h1
      exact h1.1
  case isTrue hg =>
    simp only
    split
    case isTrue hr =>
      constructor
      · intro h1; exact absurd h1 (by simp)
      · intro h1
        rw [h1.2 hg] at hr
        exact absurd hr (by simp)
    case isFalse hr =>
      constructor
      · intro h1
        refine ⟨h1, fun _ => ?_⟩
        simpa using hr
      · intro h1
        exact h1.1

theorem rrtRun_path_none_iff (P : RRTParams V) (N : ℕ) :
    (rrtRun P N).path = Option.none ↔
      ∀ k < N,
        (P.collision_free (iterNewQ P k) && P.q_in_limits (iterNewQ P k)) = true →
          reach_to_goal P (iterNewQ P k) = false := by
  induction N with
  | zero =>
      constructor
      · intro _ k hk
        omega
      · intro _
        rfl
  | succ N ih =>
      rw [show rrtRun P (N + 1) = rrtStep P N (rrtRun P N) from rfl,
        rrtStep_path_none_iff, ih]
      constructor
      · rintro ⟨h1, h2⟩ k hk
        rcases Nat.lt_or_ge k N with hlt | hge
        · exact h1 k hlt
        · have hkN : k = N := by omega
          subst hkN
          exact h2
      · intro h1
        exact ⟨fun k hk => h1 k (by omega), h1 N (by omega)⟩

theorem rrtRun_vertices_head (P : RRTParams V) (k : ℕ) :
    (rrtRun P k).vertices.getD 0 0 = P.cur_q := by
  induction k with
  | zero => rfl
  | succ k ih =>
      have hpos := (TreeInv_run P k).1
      rw [show rrtRun P (k + 1) = rrtStep P k (rrtRun P k) from rfl]
      simp only [rrtStep]
      split
      case isFalse => exact ih
      case isTrue =>
        simp only
        rw [List.getD_append _ _ _ _ hpos]
        exact ih

theorem rrtRun_path_head (P : RRTParams V) (k : ℕ) (p : List V)
    (h : (rrtRun P k).path = some p) : p.head? = some P.cur_q := by
  induction k generalizing p with
  | zero => exact absurd h (by simp [rrtRun, initState])
  | succ k ih =>
      rw [show rrtRun P (k + 1) = rrtStep P k (rrtRun P k) from rfl] at h
      simp only [rrtStep] at h
      split at h
      case isFalse => exact ih p h
      case isTrue =>
        simp only at h
        split at h
        case isTrue =>
          rw [← Option.some.inj h]
          exact find_path_head ..
        case isFalse => exact ih p h

theorem new_state_self (delta : ℝ) (q : V) : new_state delta q q = q := by
  simp [new_state]

theorem new_state_dist_eq (delta : ℝ) (nearest_q random_q : V)
    (hne : nearest_q ≠ random_q) (hd : 0 ≤ delta) :
    distance nearest_q (new_state delta nearest_q random_q) =
      min delta (distance nearest_q random_q) := by
  have hsub : random_q - nearest_q ≠ 0 := sub_ne_zero.2 (fun hEq => hne hEq.symm)
  have hdpos : 0 < distance random_q nearest_q := by
    rw [distance]
    exact norm_pos_iff.2 (sub_ne_zero.2 hne)
  rw [new_state, if_neg hne]
  simp only [distance]
  rw [add_sub_cancel_left]
  rw [norm_smul, norm_smul, norm_inv, Real.norm_eq_abs, Real.norm_eq_abs]
  have h1 : ‖random_q - nearest_q‖ = ‖nearest_q - random_q‖ := norm_sub_rev _ _
  have h2 : (0 : ℝ) ≤ min delta ‖nearest_q - random_q‖ := by
    have : (0 : ℝ) < ‖nearest_q - random_q‖ := by
      rw [← h1]
      exact norm_pos_iff.2 hsub
    exact le_min hd (le_of_lt this)
  rw [abs_of_nonneg h2, abs_of_nonneg (le_of_lt (by rw [distance] at hdpos; exact hdpos))]
  rw [h1]
  field_simp
  rw [mul_div_assoc, div_self (norm_ne_zero_iff.2 (sub_ne_zero.2 hne)), mul_one]

theorem new_state_dist_le (delta : ℝ) (nearest_q random_q : V) (hd : 0 ≤ delta) :
    distance nearest_q (new_state delta nearest_q random_q) ≤ delta := by
  by_cases hne : nearest_q = random_q
  · subst hne
    rw [new_state_self]
    simpa [distance] using hd
  · rw [new_state_dist_eq delta _ _ hne hd]
    exact min_le_left _ _

theorem rrtStep_vertices_le (P : RRTParams V) (k : ℕ) (s : RRTState V) :
    (rrtStep P k s).vertices.length ≤ s.vertices.length + 1 := by
  simp only [rrtStep]
  split
  · simp
  · omega

theorem rrtRun_vertices_le (P : RRTParams V) (k : ℕ) :
    (rrtRun P k).vertices.length ≤ k + 1 := by
  induction k with
  | zero => simp [rrtRun, initState]
  | succ k ih =>
      refine le_trans (rrtStep_vertices_le P k _) (by omega)

theorem nearest_neighbor_single (r x : V) : nearest_neighbor r [x] = (x, 0) := rfl

theorem new_state_eq_sample (delta : ℝ) (nearest_q random_q : V)
    (hne : nearest_q ≠ random_q) (hle : distance random_q nearest_q ≤ delta) :
    new_state delta nearest_q random_q = random_q := by
  rw [new_state, if_neg hne]
  have hd : distance random_q nearest_q ≠ 0 := by
    rw [distance]
    exact norm_ne_zero_iff.2 (sub_ne_zero.2 hne)
  simp only
  rw [min_eq_right hle, smul_smul, mul_inv_cancel₀ hd, one_smul, add_sub_cancel]

theorem rrtStep_vertices_of_guard (P : RRTParams V) (k : ℕ) (s : RRTState V)
    (h : (P.collision_free
          (new_state P.delta_dis (nearest_neighbor (P.sample k) s.vertices).1 (P.sample k)) &&
        P.q_in_limits
          (new_state P.delta_dis (nearest_neighbor (P.sample k) s.vertices).1 (P.sample k))) =
      true) :
    (rrtStep P k s).vertices.length = s.vertices.length + 1 := by
  simp only [rrtStep, h, if_true]
  simp

end RunLemmas

section SetupLemmas

variable {α : Type} [Zero α] [DecidableEq α]

theorem first_offending_none_iff (L : List (String × String)) :
    first_offending L = Option.none ↔ ∀ p ∈ L, is_obstacle_pair p = true := by
  induction L with
  | nil => simp [first_offending]
  | cons p L ih =>
      simp only [first_offending]
      by_cases hp : is_obstacle_pair p = true
      · rw [if_pos hp]
        simp [ih, hp]
      · rw [if_neg hp]
        simp only [List.mem_cons]
        constructor
        · intro h
          exact absurd h (by simp)
        · intro h
          exact absurd (h p (Or.inl rfl)) hp

theorem first_offending_some (L : List (String × String)) (p : String × String)
    (h : first_offending L = some p) : p ∈ L ∧ is_obstacle_pair p = false := by
  induction L with
  | nil => exact absurd h (by simp [first_offending])
  | cons q L ih =>
      simp only [first_offending] at h
      by_cases hq : is_obstacle_pair q = true
      · rw [if_pos hq] at h
        obtain ⟨h1, h2⟩ := ih h
        exact ⟨List.mem_cons_of_mem _ h1, h2⟩
      · rw [if_neg hq] at h
        obtain rfl : q = p := Option.some.inj h
        exact ⟨List.mem_cons_self _ _, by simpa using hq⟩

theorem setup_success_cur_q (cur goal : PyVal α)
    (coll : Bool × List (String × String)) (res : SetupResult α) (l : List α)
    (hok : setup_start_goal_joint cur goal coll = Except.ok res)
    (hsup : cur = PyVal.arr l ∨ cur = PyVal.pylist l) :
    res.cur_q = NpLike.arrList l := by
  have hconv : npConv cur = NpLike.arrList l := by
    rcases hsup with h | h <;> subst h <;> rfl
  cases goal with
  | arr g =>
      simp only [setup_start_goal_joint, hconv, check_q_data] at hok
      by_cases ht : npTruthy (NpLike.arrList l : NpLike α) = true
      · rw [if_pos ht] at hok
        exact absurd hok (by simp)
      · rw [if_neg ht] at hok
        simp only at hok
        cases hcoll : check_init_collision coll with
        | error e =>
            rw [hcoll] at hok
            exact absurd hok (by simp)
        | ok u =>
            rw [hcoll] at hok
            have := Except.ok.inj hok
            rw [← this]
  | none =>
      exact Except.noConfusion hok
  | pylist g =>
      simp only [setup_start_goal_joint, check_q_data, npConv] at hok
      by_cases hAll : npTruthy (NpLike.arrList g) = true
      · rw [if_pos hAll] at hok
        exact Except.noConfusion hok
      · rw [if_neg hAll] at hok
        exact Except.noConfusion hok

end SetupLemmas

section ConcreteRuns

theorem dist_pt2 (a b c d : ℝ) :
    distance (pt2 a b) (pt2 c d) = Real.sqrt ((c - a) ^ 2 + (d - b) ^ 2) := by
  rw [distance, pt2, pt2, EuclideanSpace.norm_eq, Fin.sum_univ_two]
  congr 1 <;> · simp [PiLp.sub_apply, Real.norm_eq_abs, sq_abs]

theorem dist_pt2_num (a b c d e : ℝ) (h : (c - a) ^ 2 + (d - b) ^ 2 = e ^ 2)
    (he : 0 ≤ e) : distance (pt2 a b) (pt2 c d) = e := by
  rw [dist_pt2, h, Real.sqrt_sq he]

theorem pt2_ne_of_fst (a b c d : ℝ) (h : a ≠ c) : pt2 a b ≠ pt2 c d := by
  intro hEq
  exact h (by simpa using congrFun hEq 0)

theorem PC2_radius (c : ℝ) (h2 : 2 ≤ c) (h5 : c ≤ 5) :
    min (PC2.gamma_RRTs * (Real.log c / c) ^ ((1 : ℝ) / (PC2.dimension : ℝ)))
      PC2.delta_dis = 5 := by
  have hgam : PC2.gamma_RRTs = 100 := rfl
  have hdel : PC2.delta_dis = 5 := rfl
  have hdim : ((PC2.dimension : ℕ) : ℝ) = 2 := by norm_num [PC2]
  rw [hgam, hdel, hdim]
  have hc0 : (0 : ℝ) < c := by linarith
  have hlog : (0.6931 : ℝ) ≤ Real.log c := by
    have h1 : Real.log 2 ≤ Real.log c := Real.log_le_log (by norm_num) h2
    have h2' := Real.log_two_gt_d9
    linarith
  have hbase : (0.0025 : ℝ) ≤ Real.log c / c := by
    rw [le_div_iff hc0]
    nlinarith
  have hpow : (0.05 : ℝ) ≤ (Real.log c / c) ^ ((1 : ℝ) / 2) := by
    have h1 : ((0.0025 : ℝ)) ^ ((1 : ℝ) / 2) ≤ (Real.log c / c) ^ ((1 : ℝ) / 2) :=
      Real.rpow_le_rpow (by norm_num) hbase (by norm_num)
    have h2' : ((0.0025 : ℝ)) ^ ((1 : ℝ) / 2) = 0.05 := by
      rw [show (0.0025 : ℝ) = (0.05 : ℝ) ^ (2 : ℕ) by norm_num,
        ← Real.rpow_natCast (0.05 : ℝ) 2, ← Real.rpow_mul (by norm_num)]
      norm_num
    linarith
  rw [min_eq_right]
  linarith

theorem PC2_d_34_00 : distance (pt2 3 4) (pt2 0 0) = 5 :=
  dist_pt2_num _ _ _ _ _ (by norm_num) (by norm_num)

theorem PC2_d_00_34 : distance (pt2 0 0) (pt2 3 4) = 5 :=
  dist_pt2_num _ _ _ _ _ (by norm_num) (by norm_num)

theorem PC2_fnn1 : find_near_neighbor PC2 (pt2 3 4) [pt2 0 0] = [0] := by
  have hcond : distance ([pt2 0 0].getD 0 0) (pt2 3 4) ≤
      min (PC2.gamma_RRTs *
          (Real.log ((0 + 1 + 1 : ℕ) : ℝ) / ((0 + 1 + 1 : ℕ) : ℝ)) ^
            ((1 : ℝ) / (PC2.dimension : ℝ)))
        PC2.delta_dis := by
    rw [List.getD_cons_zero, PC2_d_00_34, show ((0 + 1 + 1 : ℕ) : ℝ) = 2 by norm_num,
      PC2_radius 2 (by norm_num) (by norm_num)]
  simp only [find_near_neighbor, List.length_cons, List.length_nil]
  rw [show List.range (0 + 1) = [0] from rfl]
  rw [List.filter_cons, List.filter_nil]
  rw [decide_eq_true hcond]
  rfl

theorem PC2_gmc1 :
    get_minimum_cost PC2 [pt2 0 0] [(0 : ℝ)] [0] (pt2 3 4) 5 0 = (5, 0) := by
  have hside : ¬(get_new_cost [(0 : ℝ)] 0 (pt2 3 4) ([pt2 0 0].getD 0 0) < 5 ∧
      PC2.collision_free (pt2 3 4) = true) := by
    simp only [get_new_cost, List.getD_cons_zero, PC2_d_34_00]
    norm_num
  rw [get_minimum_cost_cons, if_neg hside, get_minimum_cost_nil]

theorem PC2_rew1 :
    rewire PC2 [pt2 0 0, pt2 3 4] [0] (pt2 3 4) 1 [(0 : ℝ), 5] [(0, 1)] =
      ([(0 : ℝ), 5], [(0, 1)]) := by
  have hside : ¬(PC2.collision_free ([pt2 0 0, pt2 3 4].getD 0 0) = true ∧
      get_new_cost [(0 : ℝ), 5] 1 (pt2 3 4) ([pt2 0 0, pt2 3 4].getD 0 0) <
        [(0 : ℝ), 5].getD 0 0) := by
    simp only [get_new_cost, List.getD_cons_zero, PC2_d_34_00]
    norm_num [show ([(0 : ℝ), 5].getD 1 0) = 5 from rfl]
  rw [rewire_cons, if_neg hside, rewire_nil]

theorem PC2_reach_false (a b : ℝ) (h : (0.04 : ℝ) < (1000 - a) ^ 2 + (0 - b) ^ 2) :
    reach_to_goal PC2 (pt2 a b) = false := by
  rw [reach_to_goal, show PC2.goal_q = pt2 1000 0 from rfl, dist_pt2,
    decide_eq_false_iff_not, not_le]
  rw [show (0.2 : ℝ) = Real.sqrt 0.04 by
    rw [show (0.04 : ℝ) = 0.2 ^ 2 by norm_num, Real.sqrt_sq (by norm_num)]]
  exact Real.sqrt_lt_sqrt (by norm_num) h

theorem PC2_run1 : rrtRun PC2 1 =
    { vertices := [pt2 0 0, pt2 3 4], edges := [(0, 1)], cost := [(0 : ℝ), 5],
      path := Option.none } := by
  rw [show rrtRun PC2 1 = rrtStep PC2 0 (initState PC2) from rfl]
  have hsam : PC2.sample 0 = pt2 3 4 := rfl
  have hvs : (initState PC2).vertices = [pt2 0 0] := rfl
  have hcost : (initState PC2).cost = [(0 : ℝ)] := rfl
  have hedg : (initState PC2).edges = ([] : List (ℕ × ℕ)) := rfl
  have hpath : (initState PC2).path =
    (Option.none : Option (List (EuclideanSpace ℝ (Fin 2)))) := rfl
  have hnn : nearest_neighbor (pt2 3 4) [pt2 0 0] = (pt2 0 0, 0) := rfl
  have hfst : (pt2 0 0, (0 : ℕ)).1 = pt2 0 0 := rfl
  have hsnd : (pt2 0 0, (0 : ℕ)).2 = (0 : ℕ) := rfl
  have hnew : new_state PC2.delta_dis (pt2 0 0) (pt2 3 4) = pt2 3 4 := by
    refine new_state_eq_sample _ _ _ (pt2_ne_of_fst _ _ _ _ (by norm_num)) ?_
    rw [PC2_d_34_00, show PC2.delta_dis = (5 : ℝ) from rfl]
  have hcf : PC2.collision_free (pt2 3 4) = true := rfl
  have hql : PC2.q_in_limits (pt2 3 4) = true := rfl
  simp only [rrtStep, hsam, hvs, hcost, hedg, hpath, hnn, hfst, hsnd, hnew, hcf, hql,
    Bool.and_self]
  rw [if_pos trivial]
  have hmc0 : get_new_cost [(0 : ℝ)] 0 (pt2 0 0) (pt2 3 4) = 5 := by
    simp only [get_new_cost, List.getD_cons_zero, PC2_d_00_34]
    norm_num
  rw [hmc0, PC2_fnn1, PC2_gmc1]
  simp only [List.singleton_append, List.nil_append, List.length_cons, List.length_nil,
    Nat.add_sub_cancel, Nat.zero_add]
  rw [PC2_rew1]
  rw [PC2_reach_false 3 4 (by norm_num)]
  rfl

theorem PC2_sqrt25 : Real.sqrt 25 = 5 := by
  rw [show (25 : ℝ) = 5 ^ 2 by norm_num, Real.sqrt_sq (by norm_num)]

theorem PC2_d_71_00 : distance (pt2 7 1) (pt2 0 0) = Real.sqrt 50 := by
  rw [dist_pt2]; norm_num

theorem PC2_d_00_71 : distance (pt2 0 0) (pt2 7 1) = Real.sqrt 50 := by
  rw [dist_pt2]; norm_num

theorem PC2_d_71_34 : distance (pt2 7 1) (pt2 3 4) = 5 :=
  dist_pt2_num _ _ _ _ _ (by norm_num) (by norm_num)

theorem PC2_d_34_71 : distance (pt2 3 4) (pt2 7 1) = 5 :=
  dist_pt2_num _ _ _ _ _ (by norm_num) (by norm_num)

theorem PC2_d_105_00 : distance (pt2 10 5) (pt2 0 0) = Real.sqrt 125 := by
  rw [dist_pt2]; norm_num

theorem PC2_d_00_105 : distance (pt2 0 0) (pt2 10 5) = Real.sqrt 125 := by
  rw [dist_pt2]; norm_num

theorem PC2_d_105_34 : distance (pt2 10 5) (pt2 3 4) = Real.sqrt 50 := by
  rw [dist_pt2]; norm_num

theorem PC2_d_34_105 : distance (pt2 3 4) (pt2 10 5) = Real.sqrt 50 := by
  rw [dist_pt2]; norm_num

theorem PC2_d_105_71 : distance (pt2 10 5) (pt2 7 1) = 5 :=
  dist_pt2_num _ _ _ _ _ (by norm_num) (by norm_num)

theorem PC2_d_71_105 : distance (pt2 7 1) (pt2 10 5) = 5 :=
  dist_pt2_num _ _ _ _ _ (by norm_num) (by norm_num)

theorem PC2_d_30_00 : distance (pt2 3 0) (pt2 0 0) = 3 :=
  dist_pt2_num _ _ _ _ _ (by norm_num) (by norm_num)

theorem PC2_d_00_30 : distance (pt2 0 0) (pt2 3 0) = 3 :=
  dist_pt2_num _ _ _ _ _ (by norm_num) (by norm_num)

theorem PC2_d_30_34 : distance (pt2 3 0) (pt2 3 4) = 4 :=
  dist_pt2_num _ _ _ _ _ (by norm_num) (by norm_num)

theorem PC2_d_34_30 : distance (pt2 3 4) (pt2 3 0) = 4 :=
  dist_pt2_num _ _ _ _ _ (by norm_num) (by norm_num)

theorem PC2_d_30_71 : distance (pt2 3 0) (pt2 7 1) = Real.sqrt 17 := by
  rw [dist_pt2]; norm_num

theorem PC2_d_71_30 : distance (pt2 7 1) (pt2 3 0) = Real.sqrt 17 := by
  rw [dist_pt2]; norm_num

theorem PC2_d_30_105 : distance (pt2 3 0) (pt2 10 5) = Real.sqrt 74 := by
  rw [dist_pt2]; norm_num

theorem PC2_d_105_30 : distance (pt2 10 5) (pt2 3 0) = Real.sqrt 74 := by
  rw [dist_pt2]; norm_num

theorem PC2_nn2 : nearest_neighbor (pt2 7 1) [pt2 0 0, pt2 3 4] = (pt2 3 4, 1) := by
  simp only [nearest_neighbor, List.map_cons, List.map_nil, PC2_d_71_00, PC2_d_71_34,
    np_argmin, argminAux]
  rw [if_pos (show (5 : ℝ) < Real.sqrt 50 from (Real.lt_sqrt (by norm_num)).mpr (by norm_num))]
  rfl

theorem PC2_fnn2 : find_near_neighbor PC2 (pt2 7 1) [pt2 0 0, pt2 3 4] = [1] := by
  have hrad : min (PC2.gamma_RRTs *
      (Real.log ((1 + 1 + 1 : ℕ) : ℝ) / ((1 + 1 + 1 : ℕ) : ℝ)) ^
        ((1 : ℝ) / (PC2.dimension : ℝ))) PC2.delta_dis = 5 := by
    rw [show ((1 + 1 + 1 : ℕ) : ℝ) = 3 by norm_num]
    exact PC2_radius 3 (by norm_num) (by norm_num)
  have hc0 : ¬(distance ([pt2 0 0, pt2 3 4].getD 0 0) (pt2 7 1) ≤
      min (PC2.gamma_RRTs *
        (Real.log ((1 + 1 + 1 : ℕ) : ℝ) / ((1 + 1 + 1 : ℕ) : ℝ)) ^
          ((1 : ℝ) / (PC2.dimension : ℝ))) PC2.delta_dis) := by
    rw [List.getD_cons_zero, PC2_d_00_71, hrad, not_le]
    exact (Real.lt_sqrt (by norm_num)).mpr (by norm_num)
  have hc1 : distance ([pt2 0 0, pt2 3 4].getD 1 0) (pt2 7 1) ≤
      min (PC2.gamma_RRTs *
        (Real.log ((1 + 1 + 1 : ℕ) : ℝ) / ((1 + 1 + 1 : ℕ) : ℝ)) ^
          ((1 : ℝ) / (PC2.dimension : ℝ))) PC2.delta_dis := by
    rw [show ([pt2 0 0, pt2 3 4].getD 1 0) = pt2 3 4 from rfl, PC2_d_34_71, hrad]
  simp only [find_near_neighbor, List.length_cons, List.length_nil,
    show PC2.collision_free (pt2 7 1) = true from rfl, Bool.and_true]
  rw [show List.range (0 + 1 + 1) = [0, 1] from rfl]
  rw [List.filter_cons, List.filter_cons, List.filter_nil]
  rw [decide_eq_false hc0, decide_eq_true hc1]
  rfl

theorem PC2_gmc2 :
    get_minimum_cost PC2 [pt2 0 0, pt2 3 4] [(0 : ℝ), 5] [1] (pt2 7 1) 10 1 = (10, 1) := by
  have hside : ¬(get_new_cost [(0 : ℝ), 5] 1 (pt2 7 1) ([pt2 0 0, pt2 3 4].getD 1 0) < 10 ∧
      PC2.collision_free (pt2 7 1) = true) := by
    simp only [get_new_cost, show ([pt2 0 0, pt2 3 4].getD 1 0) = pt2 3 4 from rfl,
      show ([(0 : ℝ), 5].getD 1 0) = (5 : ℝ) from rfl, PC2_d_71_34]
    norm_num
  rw [get_minimum_cost_cons, if_neg hside, get_minimum_cost_nil]

theorem PC2_rew2 :
    rewire PC2 [pt2 0 0, pt2 3 4, pt2 7 1] [1] (pt2 7 1) 2 [(0 : ℝ), 5, 10]
      [(0, 1), (1, 2)] = ([(0 : ℝ), 5, 10], [(0, 1), (1, 2)]) := by
  have hside : ¬(PC2.collision_free ([pt2 0 0, pt2 3 4, pt2 7 1].getD 1 0) = true ∧
      get_new_cost [(0 : ℝ), 5, 10] 2 (pt2 7 1) ([pt2 0 0, pt2 3 4, pt2 7 1].getD 1 0) <
        [(0 : ℝ), 5, 10].getD 1 0) := by
    simp only [get_new_cost, show ([pt2 0 0, pt2 3 4, pt2 7 1].getD 1 0) = pt2 3 4 from rfl,
      show ([(0 : ℝ), 5, 10].getD 2 0) = (10 : ℝ) from rfl,
      show ([(0 : ℝ), 5, 10].getD 1 0) = (5 : ℝ) from rfl, PC2_d_71_34]
    norm_num
  rw [rewire_cons, if_neg hside, rewire_nil]

theorem PC2_run2 : rrtRun PC2 2 =
    { vertices := [pt2 0 0, pt2 3 4, pt2 7 1], edges := [(0, 1), (1, 2)],
      cost := [(0 : ℝ), 5, 10], path := Option.none } := by
  rw [show rrtRun PC2 2 = rrtStep PC2 1 (rrtRun PC2 1) from rfl]
  have hvs : (rrtRun PC2 1).vertices = [pt2 0 0, pt2 3 4] := by rw [PC2_run1]
  have hcost : (rrtRun PC2 1).cost = [(0 : ℝ), 5] := by rw [PC2_run1]
  have hedg : (rrtRun PC2 1).edges = [(0, 1)] := by rw [PC2_run1]
  have hpath : (rrtRun PC2 1).path = Option.none := by rw [PC2_run1]
  have hsam : PC2.sample 1 = pt2 7 1 := rfl
  have hnn := PC2_nn2
  have hfst : (pt2 3 4, (1 : ℕ)).1 = pt2 3 4 := rfl
  have hsnd : (pt2 3 4, (1 : ℕ)).2 = (1 : ℕ) := rfl
  have hnew : new_state PC2.delta_dis (pt2 3 4) (pt2 7 1) = pt2 7 1 := by
    refine new_state_eq_sample _ _ _ (pt2_ne_of_fst _ _ _ _ (by norm_num)) ?_
    rw [PC2_d_71_34, show PC2.delta_dis = (5 : ℝ) from rfl]
  have hcf : PC2.collision_free (pt2 7 1) = true := rfl
  have hql : PC2.q_in_limits (pt2 7 1) = true := rfl
  simp only [rrtStep, hsam, hvs, hcost, hedg, hpath, hnn, hfst, hsnd, hnew, hcf, hql,
    Bool.and_self]
  rw [if_pos trivial]
  have hmc0 : get_new_cost [(0 : ℝ), 5] 1 (pt2 3 4) (pt2 7 1) = 10 := by
    simp only [get_new_cost, show ([(0 : ℝ), 5].getD 1 0) = (5 : ℝ) from rfl, PC2_d_34_71]
    norm_num
  rw [hmc0, PC2_fnn2, PC2_gmc2]
  simp only [List.cons_append, List.singleton_append, List.nil_append, List.length_cons,
    List.length_nil, Nat.add_sub_cancel, Nat.zero_add, show (1 + 1 : ℕ) = 2 from rfl]
  rw [PC2_rew2]
  rw [PC2_reach_false 7 1 (by norm_num)]
  rfl

theorem PC2_nn3 :
    nearest_neighbor (pt2 10 5) [pt2 0 0, pt2 3 4, pt2 7 1] = (pt2 7 1, 2) := by
  simp only [nearest_neighbor, List.map_cons, List.map_nil, PC2_d_105_00, PC2_d_105_34,
    PC2_d_105_71, np_argmin, argminAux]
  rw [if_pos (show Real.sqrt 50 < Real.sqrt 125 from
    Real.sqrt_lt_sqrt (by norm_num) (by norm_num))]
  rw [if_pos (show (5 : ℝ) < Real.sqrt 50 from (Real.lt_sqrt (by norm_num)).mpr (by norm_num))]
  rfl

theorem PC2_fnn3 :
    find_near_neighbor PC2 (pt2 10 5) [pt2 0 0, pt2 3 4, pt2 7 1] = [2] := by
  have hrad : min (PC2.gamma_RRTs *
      (Real.log ((1 + 1 + 1 + 1 : ℕ) : ℝ) / ((1 + 1 + 1 + 1 : ℕ) : ℝ)) ^
        ((1 : ℝ) / (PC2.dimension : ℝ))) PC2.delta_dis = 5 := by
    rw [show ((1 + 1 + 1 + 1 : ℕ) : ℝ) = 4 by norm_num]
    exact PC2_radius 4 (by norm_num) (by norm_num)
  have hc0 : ¬(distance ([pt2 0 0, pt2 3 4, pt2 7 1].getD 0 0) (pt2 10 5) ≤
      min (PC2.gamma_RRTs *
        (Real.log ((1 + 1 + 1 + 1 : ℕ) : ℝ) / ((1 + 1 + 1 + 1 : ℕ) : ℝ)) ^
          ((1 : ℝ) / (PC2.dimension : ℝ))) PC2.delta_dis) := by
    rw [List.getD_cons_zero, PC2_d_00_105, hrad, not_le]
    exact (Real.lt_sqrt (by norm_num)).mpr (by norm_num)
  have hc1 : ¬(distance ([pt2 0 0, pt2 3 4, pt2 7 1].getD 1 0) (pt2 10 5) ≤
      min (PC2.gamma_RRTs *
        (Real.log ((1 + 1 + 1 + 1 : ℕ) : ℝ) / ((1 + 1 + 1 + 1 : ℕ) : ℝ)) ^
          ((1 : ℝ) / (PC2.dimension : ℝ))) PC2.delta_dis) := by
    rw [show ([pt2 0 0, pt2 3 4, pt2 7 1].getD 1 0) = pt2 3 4 from rfl, PC2_d_34_105,
      hrad, not_le]
    exact (Real.lt_sqrt (by norm_num)).mpr (by norm_num)
  have hc2 : distance ([pt2 0 0, pt2 3 4, pt2 7 1].getD 2 0) (pt2 10 5) ≤
      min (PC2.gamma_RRTs *
        (Real.log ((1 + 1 + 1 + 1 : ℕ) : ℝ) / ((1 + 1 + 1 + 1 : ℕ) : ℝ)) ^
          ((1 : ℝ) / (PC2.dimension : ℝ))) PC2.delta_dis := by
    rw [show ([pt2 0 0, pt2 3 4, pt2 7 1].getD 2 0) = pt2 7 1 from rfl, PC2_d_71_105, hrad]
  simp only [find_near_neighbor, List.length_cons, List.length_nil,
    show PC2.collision_free (pt2 10 5) = true from rfl, Bool.and_true]
  rw [show List.range (0 + 1 + 1 + 1) = [0, 1, 2] from rfl]
  rw [List.filter_cons, List.filter_cons, List.filter_cons, List.filter_nil]
  rw [decide_eq_false hc0, decide_eq_false hc1, decide_eq_true hc2]
  rfl

theorem PC2_gmc3 :
    get_minimum_cost PC2 [pt2 0 0, pt2 3 4, pt2 7 1] [(0 : ℝ), 5, 10] [2] (pt2 10 5)
      15 2 = (15, 2) := by
  have hside : ¬(get_new_cost [(0 : ℝ), 5, 10] 2 (pt2 10 5)
      ([pt2 0 0, pt2 3 4, pt2 7 1].getD 2 0) < 15 ∧
      PC2.collision_free (pt2 10 5) = true) := by
    simp only [get_new_cost,
      show ([pt2 0 0, pt2 3 4, pt2 7 1].getD 2 0) = pt2 7 1 from rfl,
      show ([(0 : ℝ), 5, 10].getD 2 0) = (10 : ℝ) from rfl, PC2_d_105_71]
    norm_num
  rw [get_minimum_cost_cons, if_neg hside, get_minimum_cost_nil]

theorem PC2_rew3 :
    rewire PC2 [pt2 0 0, pt2 3 4, pt2 7 1, pt2 10 5] [2] (pt2 10 5) 3
      [(0 : ℝ), 5, 10, 15] [(0, 1), (1, 2), (2, 3)] =
      ([(0 : ℝ), 5, 10, 15], [(0, 1), (1, 2), (2, 3)]) := by
  have hside : ¬(PC2.collision_free ([pt2 0 0, pt2 3 4, pt2 7 1, pt2 10 5].getD 2 0) = true ∧
      get_new_cost [(0 : ℝ), 5, 10, 15] 3 (pt2 10 5)
        ([pt2 0 0, pt2 3 4, pt2 7 1, pt2 10 5].getD 2 0) <
        [(0 : ℝ), 5, 10, 15].getD 2 0) := by
    simp only [get_new_cost,
      show ([pt2 0 0, pt2 3 4, pt2 7 1, pt2 10 5].getD 2 0) = pt2 7 1 from rfl,
      show ([(0 : ℝ), 5, 10, 15].getD 3 0) = (15 : ℝ) from rfl,
      show ([(0 : ℝ), 5, 10, 15].getD 2 0) = (10 : ℝ) from rfl, PC2_d_105_71]
    norm_num
  rw [rewire_cons, if_neg hside, rewire_nil]

theorem PC2_run3 : rrtRun PC2 3 =
    { vertices := [pt2 0 0, pt2 3 4, pt2 7 1, pt2 10 5],
      edges := [(0, 1), (1, 2), (2, 3)], cost := [(0 : ℝ), 5, 10, 15],
      path := Option.none } := by
  rw [show rrtRun PC2 3 = rrtStep PC2 2 (rrtRun PC2 2) from rfl]
  have hvs : (rrtRun PC2 2).vertices = [pt2 0 0, pt2 3 4, pt2 7 1] := by rw [PC2_run2]
  have hcost : (rrtRun PC2 2).cost = [(0 : ℝ), 5, 10] := by rw [PC2_run2]
  have hedg : (rrtRun PC2 2).edges = [(0, 1), (1, 2)] := by rw [PC2_run2]
  have hpath : (rrtRun PC2 2).path = Option.none := by rw [PC2_run2]
  have hsam : PC2.sample 2 = pt2 10 5 := rfl
  have hnn := PC2_nn3
  have hfst : (pt2 7 1, (2 : ℕ)).1 = pt2 7 1 := rfl
  have hsnd : (pt2 7 1, (2 : ℕ)).2 = (2 : ℕ) := rfl
  have hnew : new_state PC2.delta_dis (pt2 7 1) (pt2 10 5) = pt2 10 5 := by
    refine new_state_eq_sample _ _ _ (pt2_ne_of_fst _ _ _ _ (by norm_num)) ?_
    rw [PC2_d_105_71, show PC2.delta_dis = (5 : ℝ) from rfl]
  have hcf : PC2.collision_free (pt2 10 5) = true := rfl
  have hql : PC2.q_in_limits (pt2 10 5) = true := rfl
  simp only [rrtStep, hsam, hvs, hcost, hedg, hpath, hnn, hfst, hsnd, hnew, hcf, hql,
    Bool.and_self]
  rw [if_pos trivial]
  have hmc0 : get_new_cost [(0 : ℝ), 5, 10] 2 (pt2 7 1) (pt2 10 5) = 15 := by
    simp only [get_new_cost, show ([(0 : ℝ), 5, 10].getD 2 0) = (10 : ℝ) from rfl,
      PC2_d_71_105]
    norm_num
  rw [hmc0, PC2_fnn3, PC2_gmc3]
  simp only [List.cons_append, List.singleton_append, List.nil_append, List.length_cons,
    List.length_nil, Nat.add_sub_cancel, Nat.zero_add,
    show (1 + 1 + 1 : ℕ) = 3 from rfl]
  rw [PC2_rew3]
  rw [PC2_reach_false 10 5 (by norm_num)]
  rfl

theorem PC2_nn4 :
    nearest_neighbor (pt2 3 0) [pt2 0 0, pt2 3 4, pt2 7 1, pt2 10 5] = (pt2 0 0, 0) := by
  simp only [nearest_neighbor, List.map_cons, List.map_nil, PC2_d_30_00, PC2_d_30_34,
    PC2_d_30_71, PC2_d_30_105, np_argmin, argminAux]
  rw [if_neg (show ¬((4 : ℝ) < 3) by norm_num)]
  rw [if_neg (show ¬(Real.sqrt 17 < 3) from not_lt.2
    ((Real.le_sqrt (by norm_num) (by norm_num)).mpr (by norm_num)))]
  rw [if_neg (show ¬(Real.sqrt 74 < 3) from not_lt.2
    ((Real.le_sqrt (by norm_num) (by norm_num)).mpr (by norm_num)))]
  rfl

theorem PC2_fnn4 :
    find_near_neighbor PC2 (pt2 3 0) [pt2 0 0, pt2 3 4, pt2 7 1, pt2 10 5] = [0, 1, 2] := by
  have hrad : min (PC2.gamma_RRTs *
      (Real.log ((1 + 1 + 1 + 1 + 1 : ℕ) : ℝ) / ((1 + 1 + 1 + 1 + 1 : ℕ) : ℝ)) ^
        ((1 : ℝ) / (PC2.dimension : ℝ))) PC2.delta_dis = 5 := by
    rw [show ((1 + 1 + 1 + 1 + 1 : ℕ) : ℝ) = 5 by norm_num]
    exact PC2_radius 5 (by norm_num) (by norm_num)
  have hc0 : distance ([pt2 0 0, pt2 3 4, pt2 7 1, pt2 10 5].getD 0 0) (pt2 3 0) ≤
      min (PC2.gamma_RRTs *
        (Real.log ((1 + 1 + 1 + 1 + 1 : ℕ) : ℝ) / ((1 + 1 + 1 + 1 + 1 : ℕ) : ℝ)) ^
          ((1 : ℝ) / (PC2.dimension : ℝ))) PC2.delta_dis := by
    rw [List.getD_cons_zero, PC2_d_00_30, hrad]
    norm_num
  have hc1 : distance ([pt2 0 0, pt2 3 4, pt2 7 1, pt2 10 5].getD 1 0) (pt2 3 0) ≤
      min (PC2.gamma_RRTs *
        (Real.log ((1 + 1 + 1 + 1 + 1 : ℕ) : ℝ) / ((1 + 1 + 1 + 1 + 1 : ℕ) : ℝ)) ^
          ((1 : ℝ) / (PC2.dimension : ℝ))) PC2.delta_dis := by
    rw [show ([pt2 0 0, pt2 3 4, pt2 7 1, pt2 10 5].getD 1 0) = pt2 3 4 from rfl,
      PC2_d_34_30, hrad]
    norm_num
  have hc2 : distance ([pt2 0 0, pt2 3 4, pt2 7 1, pt2 10 5].getD 2 0) (pt2 3 0) ≤
      min (PC2.gamma_RRTs *
        (Real.log ((1 + 1 + 1 + 1 + 1 : ℕ) : ℝ) / ((1 + 1 + 1 + 1 + 1 : ℕ) : ℝ)) ^
          ((1 : ℝ) / (PC2.dimension : ℝ))) PC2.delta_dis := by
    rw [show ([pt2 0 0, pt2 3 4, pt2 7 1, pt2 10 5].getD 2 0) = pt2 7 1 from rfl,
      PC2_d_71_30, hrad]
    exact le_trans (Real.sqrt_le_sqrt (by norm_num)) (le_of_eq PC2_sqrt25)
  have hc3 : ¬(distance ([pt2 0 0, pt2 3 4, pt2 7 1, pt2 10 5].getD 3 0) (pt2 3 0) ≤
      min (PC2.gamma_RRTs *
        (Real.log ((1 + 1 + 1 + 1 + 1 : ℕ) : ℝ) / ((1 + 1 + 1 + 1 + 1 : ℕ) : ℝ)) ^
          ((1 : ℝ) / (PC2.dimension : ℝ))) PC2.delta_dis) := by
    rw [show ([pt2 0 0, pt2 3 4, pt2 7 1, pt2 10 5].getD 3 0) = pt2 10 5 from rfl,
      PC2_d_105_30, hrad, not_le]
    exact (Real.lt_sqrt (by norm_num)).mpr (by norm_num)
  simp only [find_near_neighbor, List.length_cons, List.length_nil,
    show PC2.collision_free (pt2 3 0) = true from rfl, Bool.and_true]
  rw [show List.range (0 + 1 + 1 + 1 + 1) = [0, 1, 2, 3] from rfl]
  rw [List.filter_cons, List.filter_cons, List.filter_cons, List.filter_cons,
    List.filter_nil]
  rw [decide_eq_true hc0, decide_eq_true hc1, decide_eq_true hc2, decide_eq_false hc3]
  rfl

theorem PC2_gmc4 :
    get_minimum_cost PC2 [pt2 0 0, pt2 3 4, pt2 7 1, pt2 10 5] [(0 : ℝ), 5, 10, 15]
      [0, 1, 2] (pt2 3 0) 3 0 = (3, 0) := by
  have h0 : ¬(get_new_cost [(0 : ℝ), 5, 10, 15] 0 (pt2 3 0)
      ([pt2 0 0, pt2 3 4, pt2 7 1, pt2 10 5].getD 0 0) < 3 ∧
      PC2.collision_free (pt2 3 0) = true) := by
    simp only [get_new_cost, List.getD_cons_zero, PC2_d_30_00]
    norm_num
  have h1 : ¬(get_new_cost [(0 : ℝ), 5, 10, 15] 1 (pt2 3 0)
      ([pt2 0 0, pt2 3 4, pt2 7 1, pt2 10 5].getD 1 0) < 3 ∧
      PC2.collision_free (pt2 3 0) = true) := by
    simp only [get_new_cost,
      show ([pt2 0 0, pt2 3 4, pt2 7 1, pt2 10 5].getD 1 0) = pt2 3 4 from rfl,
      show ([(0 : ℝ), 5, 10, 15].getD 1 0) = (5 : ℝ) from rfl, PC2_d_30_34]
    norm_num
  have h2 : ¬(get_new_cost [(0 : ℝ), 5, 10, 15] 2 (pt2 3 0)
      ([pt2 0 0, pt2 3 4, pt2 7 1, pt2 10 5].getD 2 0) < 3 ∧
      PC2.collision_free (pt2 3 0) = true) := by
    simp only [get_new_cost,
      show ([pt2 0 0, pt2 3 4, pt2 7 1, pt2 10 5].getD 2 0) = pt2 7 1 from rfl,
      show ([(0 : ℝ), 5, 10, 15].getD 2 0) = (10 : ℝ) from rfl, PC2_d_30_71]
    rintro ⟨h, _⟩
    have := Real.sqrt_nonneg (17 : ℝ)
    linarith
  rw [get_minimum_cost_cons, if_neg h0, get_minimum_cost_cons, if_neg h1,
    get_minimum_cost_cons, if_neg h2, get_minimum_cost_nil]

theorem PC2_rew4 :
    rewire PC2 [pt2 0 0, pt2 3 4, pt2 7 1, pt2 10 5, pt2 3 0] [0, 1, 2] (pt2 3 0) 4
      [(0 : ℝ), 5, 10, 15, 3] [(0, 1), (1, 2), (2, 3), (0, 4)] =
      ([(0 : ℝ), 5, 3 + Real.sqrt 17, 15, 3], [(0, 1), (4, 2), (2, 3), (0, 4)]) := by
  have h0 : ¬(PC2.collision_free
      ([pt2 0 0, pt2 3 4, pt2 7 1, pt2 10 5, pt2 3 0].getD 0 0) = true ∧
      get_new_cost [(0 : ℝ), 5, 10, 15, 3] 4 (pt2 3 0)
        ([pt2 0 0, pt2 3 4, pt2 7 1, pt2 10 5, pt2 3 0].getD 0 0) <
        [(0 : ℝ), 5, 10, 15, 3].getD 0 0) := by
    simp only [get_new_cost, List.getD_cons_zero,
      show ([(0 : ℝ), 5, 10, 15, 3].getD 4 0) = (3 : ℝ) from rfl, PC2_d_30_00]
    norm_num
  have h1 : ¬(PC2.collision_free
      ([pt2 0 0, pt2 3 4, pt2 7 1, pt2 10 5, pt2 3 0].getD 1 0) = true ∧
      get_new_cost [(0 : ℝ), 5, 10, 15, 3] 4 (pt2 3 0)
        ([pt2 0 0, pt2 3 4, pt2 7 1, pt2 10 5, pt2 3 0].getD 1 0) <
        [(0 : ℝ), 5, 10, 15, 3].getD 1 0) := by
    simp only [get_new_cost,
      show ([pt2 0 0, pt2 3 4, pt2 7 1, pt2 10 5, pt2 3 0].getD 1 0) = pt2 3 4 from rfl,
      show ([(0 : ℝ), 5, 10, 15, 3].getD 4 0) = (3 : ℝ) from rfl,
      show ([(0 : ℝ), 5, 10, 15, 3].getD 1 0) = (5 : ℝ) from rfl, PC2_d_30_34]
    norm_num
  have h2 : PC2.collision_free
      ([pt2 0 0, pt2 3 4, pt2 7 1, pt2 10 5, pt2 3 0].getD 2 0) = true ∧
      get_new_cost [(0 : ℝ), 5, 10, 15, 3] 4 (pt2 3 0)
        ([pt2 0 0, pt2 3 4, pt2 7 1, pt2 10 5, pt2 3 0].getD 2 0) <
        [(0 : ℝ), 5, 10, 15, 3].getD 2 0 := by
    constructor
    · rfl
    · simp only [get_new_cost,
        show ([pt2 0 0, pt2 3 4, pt2 7 1, pt2 10 5, pt2 3 0].getD 2 0) = pt2 7 1 from rfl,
        show ([(0 : ℝ), 5, 10, 15, 3].getD 4 0) = (3 : ℝ) from rfl,
        show ([(0 : ℝ), 5, 10, 15, 3].getD 2 0) = (10 : ℝ) from rfl, PC2_d_30_71]
      have h17 : Real.sqrt 17 < 7 := (Real.sqrt_lt' (by norm_num)).mpr (by norm_num)
      linarith
  rw [rewire_cons, if_neg h0, rewire_cons, if_neg h1, rewire_cons, if_pos h2, rewire_nil]
  have hval : get_new_cost [(0 : ℝ), 5, 10, 15, 3] 4 (pt2 3 0)
      ([pt2 0 0, pt2 3 4, pt2 7 1, pt2 10 5, pt2 3 0].getD 2 0) = 3 + Real.sqrt 17 := by
    simp only [get_new_cost,
      show ([pt2 0 0, pt2 3 4, pt2 7 1, pt2 10 5, pt2 3 0].getD 2 0) = pt2 7 1 from rfl,
      show ([(0 : ℝ), 5, 10, 15, 3].getD 4 0) = (3 : ℝ) from rfl, PC2_d_30_71]
  rw [hval]
  rfl

theorem PC2_run4 : rrtRun PC2 4 =
    { vertices := [pt2 0 0, pt2 3 4, pt2 7 1, pt2 10 5, pt2 3 0],
      edges := [(0, 1), (4, 2), (2, 3), (0, 4)],
      cost := [(0 : ℝ), 5, 3 + Real.sqrt 17, 15, 3], path := Option.none } := by
  rw [show rrtRun PC2 4 = rrtStep PC2 3 (rrtRun PC2 3) from rfl]
  have hvs : (rrtRun PC2 3).vertices = [pt2 0 0, pt2 3 4, pt2 7 1, pt2 10 5] := by
    rw [PC2_run3]
  have hcost : (rrtRun PC2 3).cost = [(0 : ℝ), 5, 10, 15] := by rw [PC2_run3]
  have hedg : (rrtRun PC2 3).edges = [(0, 1), (1, 2), (2, 3)] := by rw [PC2_run3]
  have hpath : (rrtRun PC2 3).path = Option.none := by rw [PC2_run3]
  have hsam : PC2.sample 3 = pt2 3 0 := rfl
  have hnn := PC2_nn4
  have hfst : (pt2 0 0, (0 : ℕ)).1 = pt2 0 0 := rfl
  have hsnd : (pt2 0 0, (0 : ℕ)).2 = (0 : ℕ) := rfl
  have hnew : new_state PC2.delta_dis (pt2 0 0) (pt2 3 0) = pt2 3 0 := by
    refine new_state_eq_sample _ _ _ (pt2_ne_of_fst _ _ _ _ (by norm_num)) ?_
    rw [PC2_d_30_00, show PC2.delta_dis = (5 : ℝ) from rfl]
    norm_num
  have hcf : PC2.collision_free (pt2 3 0) = true := rfl
  have hql : PC2.q_in_limits (pt2 3 0) = true := rfl
  simp only [rrtStep, hsam, hvs, hcost, hedg, hpath, hnn, hfst, hsnd, hnew, hcf, hql,
    Bool.and_self]
  rw [if_pos trivial]
  have hmc0 : get_new_cost [(0 : ℝ), 5, 10, 15] 0 (pt2 0 0) (pt2 3 0) = 3 := by
    simp only [get_new_cost, List.getD_cons_zero, PC2_d_00_30]
    norm_num
  rw [hmc0, PC2_fnn4, PC2_gmc4]
  simp only [List.cons_append, List.singleton_append, List.nil_append, List.length_cons,
    List.length_nil, Nat.add_sub_cancel, Nat.zero_add,
    show (1 + 1 + 1 + 1 : ℕ) = 4 from rfl]
  rw [PC2_rew4]
  rw [PC2_reach_false 3 0 (by norm_num)]
  rfl

theorem Pex_gmc : ∀ (L : List ℕ), (∀ i ∈ L, i = 0) →
    get_minimum_cost Pex [(0 : ℝ)] [(0 : ℝ)] L (0 : ℝ) 0 0 = (0, 0) := by
  intro L
  induction L with
  | nil => intro _; rfl
  | cons i L ih =>
      intro hL
      have hi : i = 0 := hL i (List.mem_cons_self _ _)
      subst hi
      rw [get_minimum_cost_cons, if_neg ?side]
      · exact ih (fun j hj => hL j (List.mem_cons_of_mem _ hj))
      case side =>
        simp [get_new_cost, distance]

theorem Pex_rewire : ∀ (L : List ℕ), (∀ i ∈ L, i = 0) →
    rewire Pex [(0 : ℝ), 0] L (0 : ℝ) 1 [(0 : ℝ), 0] [(0, 1)] = ([(0 : ℝ), 0], [(0, 1)]) := by
  intro L
  induction L with
  | nil => intro _; rfl
  | cons i L ih =>
      intro hL
      have hi : i = 0 := hL i (List.mem_cons_self _ _)
      subst hi
      rw [rewire_cons, if_neg ?side]
      · exact ih (fun j hj => hL j (List.mem_cons_of_mem _ hj))
      case side =>
        simp [get_new_cost, distance]

theorem Pex_run_one : rrtRun Pex 1 =
    { vertices := [(0 : ℝ), 0], edges := [(0, 1)], cost := [(0 : ℝ), 0],
      path := Option.none } := by
  rw [show rrtRun Pex 1 = rrtStep Pex 0 (initState Pex) from rfl]
  have hsam : Pex.sample 0 = (0 : ℝ) := rfl
  have hvs : (initState Pex).vertices = [(0 : ℝ)] := rfl
  have hcost : (initState Pex).cost = [(0 : ℝ)] := rfl
  have hedg : (initState Pex).edges = ([] : List (ℕ × ℕ)) := rfl
  have hpath : (initState Pex).path = (Option.none : Option (List ℝ)) := rfl
  have hnn : nearest_neighbor (0 : ℝ) [(0 : ℝ)] = ((0 : ℝ), 0) := rfl
  have hfst : ((0 : ℝ), (0 : ℕ)).1 = (0 : ℝ) := rfl
  have hsnd : ((0 : ℝ), (0 : ℕ)).2 = (0 : ℕ) := rfl
  have hnew : new_state Pex.delta_dis (0 : ℝ) (0 : ℝ) = (0 : ℝ) := by
    rw [new_state, if_pos rfl]
  have hcf : Pex.collision_free (0 : ℝ) = true := rfl
  have hql : Pex.q_in_limits (0 : ℝ) = true := rfl
  simp only [rrtStep, hsam, hvs, hcost, hedg, hpath, hnn, hfst, hsnd, hnew, hcf, hql,
    Bool.and_self]
  rw [if_pos trivial]
  have hmc0 : get_new_cost [(0 : ℝ)] (0 : ℕ) (0 : ℝ) (0 : ℝ) = 0 := by
    simp [get_new_cost, distance]
  rw [hmc0]
  have hLmem : ∀ i ∈ find_near_neighbor Pex (0 : ℝ) [(0 : ℝ)], i = 0 := by
    intro i hi
    have := find_near_neighbor_lt Pex (0 : ℝ) [(0 : ℝ)] i hi
    simp at this
    omega
  rw [Pex_gmc _ hLmem]
  simp only [hfst, hsnd, List.singleton_append, List.nil_append,
    List.length_cons, List.length_nil, Nat.add_sub_cancel]
  rw [Pex_rewire _ hLmem]
  have hreach : reach_to_goal Pex (0 : ℝ) = false := by
    rw [reach_to_goal, show Pex.goal_q = (100 : ℝ) from rfl, decide_eq_false_iff_not,
      distance]
    norm_num
  rw [hreach]
  rfl

end ConcreteRuns

section Claims

/-- C1: at every iteration boundary of `generate_path()` the tree is a valid
rooted tree: the number of recorded edges equals the number of vertices
minus one, vertex 0 is never the child of any edge (rewiring never assigns
it a parent), and following parent links from any vertex reaches vertex 0
in at most `|vertices|` steps, so rewiring can never create a cycle. -/
theorem C1_tree_validity :
    ∀ (V : Type) [NormedAddCommGroup V] [NormedSpace ℝ V] [DecidableEq V]
      (P : RRTParams V) (k : ℕ),
      (rrtRun P k).edges.length + 1 = (rrtRun P k).vertices.length ∧
      (∀ e ∈ (rrtRun P k).edges, e.2 ≠ 0) ∧
      (∀ v < (rrtRun P k).vertices.length,
        ∃ m ≤ (rrtRun P k).vertices.length, (parentOf (rrtRun P k).edges)^[m] v = 0) := by
  intro V _ _ _ P k
  obtain ⟨hpos, hce⟩ := TreeInv_run P k
  refine ⟨hce.elen, ?_, ?_⟩
  · intro e he
    obtain ⟨j, hj, hje⟩ := List.mem_iff_getElem.1 he
    have hc := hce.child j hj
    rw [List.getD_eq_getElem _ _ hj, hje] at hc
    omega
  · intro v hv
    exact hce.reach_bound hv (hce.reach v hv)

/-- C2 (amended): at every iteration boundary, every recorded edge
satisfies `cost[parent] + distance(vertices[parent], vertices[child]) ≤
cost[child]`; the recorded cost of a child of a rewired vertex is a stale
upper bound, not necessarily the exact sum (see the counterexample). -/
theorem C2_amended_cost_lower_bound :
    ∀ (V : Type) [NormedAddCommGroup V] [NormedSpace ℝ V] [DecidableEq V]
      (P : RRTParams V) (k j : ℕ),
      j < (rrtRun P k).edges.length →
      (rrtRun P k).cost.getD ((rrtRun P k).edges.getD j (0, 0)).1 0 +
          distance ((rrtRun P k).vertices.getD ((rrtRun P k).edges.getD j (0, 0)).1 0)
            ((rrtRun P k).vertices.getD (j + 1) 0)
        ≤ (rrtRun P k).cost.getD (j + 1) 0 := by
  intro V _ _ _ P k j hj
  exact (TreeInv_run P k).2.pcost j hj

/-- C3 (amended): when the sample equals the nearest vertex exactly,
`new_state` returns the nearest vertex itself and the iteration is NOT
skipped — whenever the validity checks pass, a (possibly duplicate) vertex
is still appended; otherwise the steered configuration lies at distance
exactly `min(delta, distance(nearest, sample))` from the nearest vertex. -/
theorem C3_amended_steer :
    ∀ (V : Type) [NormedAddCommGroup V] [NormedSpace ℝ V] [DecidableEq V]
      (delta : ℝ) (nearest_q random_q : V),
      (nearest_q = random_q → new_state delta nearest_q random_q = nearest_q) ∧
      (nearest_q ≠ random_q → 0 ≤ delta →
        distance nearest_q (new_state delta nearest_q random_q) =
          min delta (distance nearest_q random_q)) ∧
      (∀ (P : RRTParams V) (k : ℕ) (s : RRTState V),
        (P.collision_free
              (new_state P.delta_dis (nearest_neighbor (P.sample k) s.vertices).1
                (P.sample k)) &&
            P.q_in_limits
              (new_state P.delta_dis (nearest_neighbor (P.sample k) s.vertices).1
                (P.sample k))) = true →
        (rrtStep P k s).vertices.length = s.vertices.length + 1) := by
  intro V _ _ _ delta nearest_q random_q
  refine ⟨?_, ?_, ?_⟩
  · intro h
    rw [new_state, if_pos h]
  · intro hne hd
    exact new_state_dist_eq delta nearest_q random_q hne hd
  · intro P k s h
    exact rrtStep_vertices_of_guard P k s h

/-- C4: the code is wrong here.  `_check_q_data`'s condition
`current_q.all() or goal_q.all() is None` raises `NotFoundError` exactly
when every component of `current_q` is nonzero (so a supplied, well-formed
pair such as start = goal = [1, 1] is rejected), and a missing goal
(`goal=None`) crashes with `AttributeError` instead of the intended
configuration error. -/
theorem C4_validation_misfires :
    @setup_start_goal_joint ℚ _ _ (PyVal.arr [1, 1]) (PyVal.arr [1, 1]) (false, []) =
        Except.error PyErr.notFound ∧
      @setup_start_goal_joint ℚ _ _ (PyVal.arr [0, 1]) PyVal.none (false, []) =
        Except.error PyErr.attrErr := by
  exact ⟨rfl, rfl⟩

/-- C5: every successful setup stores the supplied start configuration in
`cur_q` (supplied as array or plain sequence — the latter only succeeds
when the goal is an ndarray), and during `generate_path()` vertex 0 always
equals `cur_q` while any extracted path starts with `cur_q`. -/
theorem C5_root_is_start :
    (∀ (α : Type) [Zero α] [DecidableEq α] (cur goal : PyVal α)
        (coll : Bool × List (String × String)) (res : SetupResult α) (l : List α),
        setup_start_goal_joint cur goal coll = Except.ok res →
        (cur = PyVal.arr l ∨ cur = PyVal.pylist l) →
        res.cur_q = NpLike.arrList l) ∧
    (∀ (V : Type) [NormedAddCommGroup V] [NormedSpace ℝ V] [DecidableEq V]
        (P : RRTParams V) (k : ℕ),
        (rrtRun P k).vertices.getD 0 0 = P.cur_q ∧
        ∀ p, (rrtRun P k).path = some p → p.head? = some P.cur_q) := by
  constructor
  · intro α _ _ cur goal coll res l hok hsup
    exact setup_success_cur_q cur goal coll res l hok hsup
  · intro V _ _ _ P k
    exact ⟨rrtRun_vertices_head P k, fun p hp => rrtRun_path_head P k p hp⟩

/-- C6: an iteration whose steered candidate fails the collision check or
the joint-limit check leaves the planner state (vertices, edges, cost map,
and path) exactly unchanged. -/
theorem C6_rejection_is_frame :
    ∀ (V : Type) [NormedAddCommGroup V] [NormedSpace ℝ V] [DecidableEq V]
      (P : RRTParams V) (k : ℕ) (s : RRTState V),
      (P.collision_free
            (new_state P.delta_dis (nearest_neighbor (P.sample k) s.vertices).1
              (P.sample k)) &&
          P.q_in_limits
            (new_state P.delta_dis (nearest_neighbor (P.sample k) s.vertices).1
              (P.sample k))) = false →
      rrtStep P k s = s := by
  intro V _ _ _ P k s h
  simp only [rrtStep, h]
  simp

/-- C7: the neighbor set of a candidate configuration is exactly the set of
indices of existing vertices within
`min(gamma * (ln(n+1)/(n+1))^(1/DOF), delta)` of it (`n` the current vertex
count), with the redundant per-candidate collision check on the candidate
itself. -/
theorem C7_neighbor_radius :
    ∀ (V : Type) [NormedAddCommGroup V] [NormedSpace ℝ V] [DecidableEq V]
      (P : RRTParams V) (q : V) (vs : List V) (i : ℕ),
      i ∈ find_near_neighbor P q vs ↔
        i < vs.length ∧
          distance (vs.getD i 0) q ≤
            min (P.gamma_RRTs *
                (Real.log ((vs.length + 1 : ℕ) : ℝ) / ((vs.length + 1 : ℕ) : ℝ)) ^
                  ((1 : ℝ) / (P.dimension : ℝ)))
              P.delta_dis ∧
          P.collision_free q = true := by
  intro V _ _ _ P q vs i
  exact mem_find_near_neighbor P q vs i

/-- C8: rewiring never increases any recorded cost (pointwise, for any
neighbor list and any cost/edge state), and consequently each vertex's
recorded cost is non-increasing across the whole run of
`generate_path()`. -/
theorem C8_cost_nonincreasing :
    (∀ (V : Type) [NormedAddCommGroup V] [NormedSpace ℝ V] [DecidableEq V]
        (P : RRTParams V) (vs : List V) (q : V) (ni : ℕ) (L : List ℕ)
        (cost : List ℝ) (edges : List (ℕ × ℕ)) (i : ℕ),
        (rewire P vs L q ni cost edges).1.getD i 0 ≤ cost.getD i 0) ∧
    (∀ (V : Type) [NormedAddCommGroup V] [NormedSpace ℝ V] [DecidableEq V]
        (P : RRTParams V) (k k' i : ℕ), k ≤ k' → i < (rrtRun P k).cost.length →
        (rrtRun P k').cost.getD i 0 ≤ (rrtRun P k).cost.getD i 0) := by
  constructor
  · intro V _ _ _ P vs q ni L cost edges i
    exact rewire_cost_getD_le P vs q ni L cost edges i
  · intro V _ _ _ P k k' i h hi
    exact rrtRun_cost_getD_mono P h hi

/-- C9: setup raises `CollisionError` exactly when the oracle reports a
collision containing a pair in which not both names contain `"obstacle"`;
the raised error carries such an offending reported pair, and
obstacle-obstacle pairs alone never raise.  (Setup runs before
`generate_path()`, which creates the tree afresh, so a raise entails zero
tree mutations.) -/
theorem C9_start_collision_check :
    ∀ (res : Bool × List (String × String)),
      ((∃ p, check_init_collision res = Except.error (PyErr.collisionErr p)) ↔
        res.1 = true ∧ ∃ p ∈ res.2, is_obstacle_pair p = false) ∧
      (∀ p, check_init_collision res = Except.error (PyErr.collisionErr p) →
        p ∈ res.2 ∧ is_obstacle_pair p = false) ∧
      (∀ e, check_init_collision res = Except.error e → ∃ p, e = PyErr.collisionErr p) ∧
      (check_init_collision res = Except.ok () ↔
        res.1 = false ∨ ∀ p ∈ res.2, is_obstacle_pair p = true) := by
  intro res
  have hsound : ∀ p, check_init_collision res = Except.error (PyErr.collisionErr p) →
      res.1 = true ∧ p ∈ res.2 ∧ is_obstacle_pair p = false := by
    intro p hp
    unfold check_init_collision at hp
    split at hp
    case isTrue h1 =>
      cases hfo : first_offending res.2 with
      | some q =>
          rw [hfo] at hp
          have hq : q = p := by
            have := Except.error.inj hp
            exact PyErr.collisionErr.inj this
          subst hq
          obtain ⟨h2, h3⟩ := first_offending_some _ q hfo
          exact ⟨by simpa using h1, h2, h3⟩
      | none =>
          rw [hfo] at hp
          exact Except.noConfusion hp
    case isFalse => exact Except.noConfusion hp
  refine ⟨⟨?_, ?_⟩, ?_, ?_, ?_⟩
  · rintro ⟨p, hp⟩
    obtain ⟨h1, h2, h3⟩ := hsound p hp
    exact ⟨h1, p, h2, h3⟩
  · rintro ⟨h1, p, hp2, hp3⟩
    unfold check_init_collision
    rw [if_pos (by simpa using h1)]
    cases hfo : first_offending res.2 with
    | some q => exact ⟨q, rfl⟩
    | none =>
        have := (first_offending_none_iff res.2).1 hfo p hp2
        rw [this] at hp3
        exact absurd hp3 (by simp)
  · intro p hp
    exact ⟨(hsound p hp).2.1, (hsound p hp).2.2⟩
  · intro e he
    unfold check_init_collision at he
    split at he
    case isTrue =>
      cases hfo : first_offending res.2 with
      | some q =>
          rw [hfo] at he
          exact ⟨q, (Except.error.inj he).symm⟩
      | none =>
          rw [hfo] at he
          exact Except.noConfusion he
    case isFalse => exact Except.noConfusion he
  · unfold check_init_collision
    split
    case isTrue h1 =>
      cases hfo : first_offending res.2 with
      | some q =>
          constructor
          · intro h
            exact absurd h (by simp)
          · intro h
            rcases h with h | h
            · rw [h] at h1
              exact absurd h1 (by simp)
            · have := (first_offending_none_iff res.2).2 h
              rw [this] at hfo
              exact Option.noConfusion hfo
      | none =>
          constructor
          · intro _
            exact Or.inr ((first_offending_none_iff res.2).1 hfo)
          · intro _
            rfl
    case isFalse h1 =>
      constructor
      · intro _
        exact Or.inl (by simpa using h1)
      · intro _
        rfl

/-- C10: if no iteration's steered vertex that passes the validity checks
ever satisfies the goal check, `generate_path()` returns `None`; with
`max_iter = 1` the tree holds at most 2 vertices; and when start and goal
are farther apart than `delta + 0.2` (the goal tolerance), a
`max_iter = 1` run returns the no-path sentinel with at most 2 vertices. -/
theorem C10_exhaustion_returns_none :
    (∀ (V : Type) [NormedAddCommGroup V] [NormedSpace ℝ V] [DecidableEq V]
        (P : RRTParams V),
        (∀ k < P.max_iter,
          (P.collision_free (iterNewQ P k) && P.q_in_limits (iterNewQ P k)) = true →
            reach_to_goal P (iterNewQ P k) = false) →
        generate_path P = Option.none) ∧
    (∀ (V : Type) [NormedAddCommGroup V] [NormedSpace ℝ V] [DecidableEq V]
        (P : RRTParams V), P.max_iter = 1 →
        (rrtRun P P.max_iter).vertices.length ≤ 2) ∧
    (∀ (V : Type) [NormedAddCommGroup V] [NormedSpace ℝ V] [DecidableEq V]
        (P : RRTParams V), P.max_iter = 1 → 0 ≤ P.delta_dis →
        P.delta_dis + 0.2 < distance P.cur_q P.goal_q →
        generate_path P = Option.none ∧ (rrtRun P P.max_iter).vertices.length ≤ 2) := by
  refine ⟨?_, ?_, ?_⟩
  · intro V _ _ _ P h
    exact (rrtRun_path_none_iff P P.max_iter).2 h
  · intro V _ _ _ P h1
    rw [h1]
    exact rrtRun_vertices_le P 1
  · intro V _ _ _ P h1 h2 h3
    have hreach : reach_to_goal P (iterNewQ P 0) = false := by
      have hnn : (nearest_neighbor (P.sample 0) (rrtRun P 0).vertices).1 = P.cur_q := by
        rw [show (rrtRun P 0).vertices = [P.cur_q] from rfl, nearest_neighbor_single]
      have hq : iterNewQ P 0 = new_state P.delta_dis P.cur_q (P.sample 0) := by
        rw [iterNewQ, hnn]
      have hdle : distance P.cur_q (iterNewQ P 0) ≤ P.delta_dis := by
        rw [hq]
        exact new_state_dist_le _ _ _ h2
      have htri : distance P.cur_q P.goal_q ≤
          distance P.cur_q (iterNewQ P 0) + distance (iterNewQ P 0) P.goal_q := by
        rw [distance_eq_dist, distance_eq_dist, distance_eq_dist]
        exact dist_triangle _ _ _
      have hfar : (0.2 : ℝ) < distance (iterNewQ P 0) P.goal_q := by linarith
      unfold reach_to_goal
      exact decide_eq_false (not_le.2 hfar)
    constructor
    · apply (rrtRun_path_none_iff P P.max_iter).2
      intro k hk
      rw [h1] at hk
      have hk0 : k = 0 := by omega
      subst hk0
      intro _
      exact hreach
    · rw [h1]
      exact rrtRun_vertices_le P 1

/-- C2 (counterexample): in the two-joint run `PC2`, iteration 3 rewires
vertex 2 (its recorded parent changes from 1 to 4), after which vertex 3 —
a child of the rewired vertex — violates the claimed exact equality:
`cost[3] = 15` but `cost[2] + distance(vertices[2], vertices[3]) =
(3 + √17) + 5 ≠ 15`. -/
theorem C2_counterexample :
    (rrtRun PC2 3).edges.getD 1 (0, 0) = (1, 2) ∧
    (rrtRun PC2 4).edges.getD 1 (0, 0) = (4, 2) ∧
    (rrtRun PC2 4).cost.getD 3 0 ≠
      (rrtRun PC2 4).cost.getD ((rrtRun PC2 4).edges.getD 2 (0, 0)).1 0 +
        distance ((rrtRun PC2 4).vertices.getD ((rrtRun PC2 4).edges.getD 2 (0, 0)).1 0)
          ((rrtRun PC2 4).vertices.getD 3 0) := by
  refine ⟨by rw [PC2_run3]; rfl, by rw [PC2_run4]; rfl, ?_⟩
  rw [PC2_run4]
  dsimp only
  rw [show (([(0, 1), (4, 2), (2, 3), (0, 4)] : List (ℕ × ℕ)).getD 2 (0, 0)).1 = 2 from rfl]
  rw [show ([(0 : ℝ), 5, 3 + Real.sqrt 17, 15, 3].getD 3 0) = (15 : ℝ) from rfl]
  rw [show ([(0 : ℝ), 5, 3 + Real.sqrt 17, 15, 3].getD 2 0) = 3 + Real.sqrt 17 from rfl]
  rw [show ([pt2 0 0, pt2 3 4, pt2 7 1, pt2 10 5, pt2 3 0].getD 2 0) = pt2 7 1 from rfl]
  rw [show ([pt2 0 0, pt2 3 4, pt2 7 1, pt2 10 5, pt2 3 0].getD 3 0) = pt2 10 5 from rfl]
  rw [PC2_d_71_105]
  intro hEq
  have h17 : Real.sqrt 17 = 7 := by linarith
  have hsq := Real.sq_sqrt (show (0 : ℝ) ≤ 17 by norm_num)
  rw [h17] at hsq
  norm_num at hsq

/-- C3 (counterexample): in the one-joint run `Pex`, the first sample
equals the nearest tree vertex exactly, yet the iteration is not skipped —
a second (duplicate) vertex is appended, so the tree has 2 vertices after
one iteration. -/
theorem C3_counterexample :
    (nearest_neighbor (Pex.sample 0) (rrtRun Pex 0).vertices).1 = Pex.sample 0 ∧
    (rrtRun Pex 1).vertices.length = 2 := by
  constructor
  · rfl
  · rw [Pex_run_one]
    rfl

/-- C1 witness at the concrete one-joint run `Pex`. -/
theorem C1_tree_validity_witness :
    (rrtRun Pex 1).edges.length + 1 = (rrtRun Pex 1).vertices.length ∧
    (∃ m ≤ (rrtRun Pex 1).vertices.length, (parentOf (rrtRun Pex 1).edges)^[m] 1 = 0) := by
  obtain ⟨h1, _, h3⟩ := C1_tree_validity ℝ Pex 1
  exact ⟨h1, h3 1 (by rw [Pex_run_one]; norm_num)⟩

/-- C2 (amended) witness at the concrete one-joint run `Pex`. -/
theorem C2_amended_cost_lower_bound_witness :
    (rrtRun Pex 1).cost.getD ((rrtRun Pex 1).edges.getD 0 (0, 0)).1 0 +
        distance ((rrtRun Pex 1).vertices.getD ((rrtRun Pex 1).edges.getD 0 (0, 0)).1 0)
          ((rrtRun Pex 1).vertices.getD 1 0) ≤ (rrtRun Pex 1).cost.getD 1 0 :=
  C2_amended_cost_lower_bound ℝ Pex 1 0 (by rw [Pex_run_one]; norm_num)

/-- C3 (amended) witness: concrete steering instances on the line. -/
theorem C3_amended_steer_witness :
    new_state (1 : ℝ) (0 : ℝ) 0 = 0 ∧
    distance (0 : ℝ) (new_state (1 : ℝ) (0 : ℝ) 1) = min 1 (distance (0 : ℝ) 1) ∧
    (rrtStep Pex 0 (initState Pex)).vertices.length =
      (initState Pex).vertices.length + 1 := by
  obtain ⟨h1, _, h3⟩ := C3_amended_steer ℝ 1 (0 : ℝ) 0
  obtain ⟨_, h2', _⟩ := C3_amended_steer ℝ 1 (0 : ℝ) 1
  exact ⟨h1 rfl, h2' (by norm_num) (by norm_num), h3 Pex 0 (initState Pex) rfl⟩

/-- C5 witness: a concrete successful setup stores the supplied start, and
vertex 0 of the concrete run equals `cur_q`. -/
theorem C5_root_is_start_witness :
    (∃ res, @setup_start_goal_joint ℚ _ _ (PyVal.arr [0, 1]) (PyVal.arr [1, 1]) (false, []) =
        Except.ok res ∧ res.cur_q = NpLike.arrList [0, 1]) ∧
    (rrtRun Pex 0).vertices.getD 0 0 = Pex.cur_q := by
  constructor
  · refine ⟨{ cur_q := NpLike.arrList [0, 1], goal_q := PyVal.arr [1, 1], dimension := 2 },
      rfl, ?_⟩
    exact C5_root_is_start.1 ℚ (PyVal.arr [0, 1]) (PyVal.arr [1, 1]) (false, []) _ [0, 1]
      rfl (Or.inl rfl)
  · exact (C5_root_is_start.2 ℝ Pex 0).1

/-- C6 witness: the planner `Pcol`, whose oracle rejects everything, leaves
the initial state untouched. -/
theorem C6_rejection_is_frame_witness :
    rrtStep Pcol 0 (initState Pcol) = initState Pcol :=
  C6_rejection_is_frame ℝ Pcol 0 (initState Pcol) rfl

/-- C7 witness: the start vertex of `Pex` lies in its own neighbor set. -/
theorem C7_neighbor_radius_witness : 0 ∈ find_near_neighbor Pex (0 : ℝ) [(0 : ℝ)] := by
  apply (C7_neighbor_radius ℝ Pex (0 : ℝ) [(0 : ℝ)] 0).mpr
  refine ⟨by norm_num, ?_, rfl⟩
  rw [show ([(0 : ℝ)].getD 0 0) = (0 : ℝ) from rfl,
    show distance (0 : ℝ) 0 = 0 by simp [distance]]
  apply le_min
  · apply mul_nonneg
    · rw [show Pex.gamma_RRTs = (100 : ℝ) from rfl]
      norm_num
    · apply Real.rpow_nonneg
      apply div_nonneg
      · simp only [List.length_cons, List.length_nil]
        rw [show ((0 + 1 + 1 : ℕ) : ℝ) = 2 by norm_num]
        exact Real.log_nonneg (by norm_num)
      · positivity
  · rw [show Pex.delta_dis = (1 : ℝ) from rfl]
    norm_num

/-- C8 witness: concrete rewire call and concrete run instances. -/
theorem C8_cost_nonincreasing_witness :
    (rewire Pex [(0 : ℝ)] [] (0 : ℝ) 0 [(0 : ℝ)] []).1.getD 0 0 ≤ [(0 : ℝ)].getD 0 0 ∧
    (rrtRun Pex 1).cost.getD 0 0 ≤ (rrtRun Pex 0).cost.getD 0 0 :=
  ⟨C8_cost_nonincreasing.1 ℝ Pex [(0 : ℝ)] (0 : ℝ) 0 [] [(0 : ℝ)] [] 0,
    C8_cost_nonincreasing.2 ℝ Pex 0 1 0 (by norm_num) Nat.zero_lt_one⟩

/-- C9 witness: an obstacle-obstacle pair alone does not raise, while a
report containing a robot-object pair raises a `CollisionError`. -/
theorem C9_start_collision_check_witness :
    check_init_collision (true, [("obstacle_a", "obstacle_b")]) = Except.ok () ∧
    ∃ p, check_init_collision (true, [("obstacle_a", "obstacle_b"), ("panda_hand", "box")]) =
      Except.error (PyErr.collisionErr p) := by
  constructor
  · apply (C9_start_collision_check (true, [("obstacle_a", "obstacle_b")])).2.2.2.mpr
    right
    intro p hp
    rw [List.mem_singleton] at hp
    subst hp
    decide
  · apply (C9_start_collision_check
      (true, [("obstacle_a", "obstacle_b"), ("panda_hand", "box")])).1.mpr
    exact ⟨rfl, ("panda_hand", "box"), by simp, by decide⟩

/-- C10 witness: spec Scenario C at the concrete planner `Pfar`. -/
theorem C10_exhaustion_returns_none_witness :
    generate_path Pfar = Option.none ∧ (rrtRun Pfar Pfar.max_iter).vertices.length ≤ 2 :=
  C10_exhaustion_returns_none.2.2 ℝ Pfar rfl
    (by rw [show Pfar.delta_dis = (0.01 : ℝ) from rfl]; norm_num)
    (by
      rw [show Pfar.delta_dis = (0.01 : ℝ) from rfl, show Pfar.cur_q = (0 : ℝ) from rfl,
        show Pfar.goal_q = (100 : ℝ) from rfl, distance]
      rw [show ((100 : ℝ) - 0) = 100 by norm_num, Real.norm_eq_abs]
      norm_num)

end Claims

end RRTStar
